import Mathlib

/-!
# A shallow embedding of `malloc_4.cpp`

The allocator keeps its state in global variables and in headers
(`MallocMetadata`) stored in the managed memory itself.  The embedding makes
that state explicit:

* pointers are natural numbers, `0` is `nullptr`;
* `size_t` arithmetic is arithmetic modulo `2 ^ 64`;
* the store maps the address of a header to the value of its seven fields;
  a header may be read or written only at the address of `dummy_free`, inside the
  heap `[heap_base, brk)` or inside a region handed out by `mmap`;
* running into undefined behaviour is a `Fault`;
* the two `while` loops take a fuel argument.

The store is keyed by header address, so it describes memories in which two
distinct headers do not share bytes.
-/

namespace OS4

/-! ## Machine arithmetic -/

/-- Modulus of `size_t` and of pointers (LP64). -/
def SIZE_MOD : Nat := 2 ^ 64

/-- Unsigned addition of `size_t`. -/
def wadd (a b : Nat) : Nat := (a + b) % SIZE_MOD

/-- Unsigned subtraction of `size_t`: wraps around when `a < b`. -/
def wsub (a b : Nat) : Nat := (a + (SIZE_MOD - b % SIZE_MOD)) % SIZE_MOD

/-- Unsigned multiplication of `size_t`. -/
def wmul (a b : Nat) : Nat := (a * b) % SIZE_MOD

/-! ## Declarations (lines 7-32) -/

def MAX_ALLOC : Nat := 100000000

def MMAP_THRESHOLD : Nat := 131072

/-- The header of a block (lines 14-24). Pointers are addresses, `0` is `nullptr`. -/
structure MallocMetadata where
  size : Nat
  is_free : Bool
  is_mmap : Bool
  next_free : Nat
  prev_free : Nat
  heap_next : Nat
  heap_prev : Nat
deriving DecidableEq, Repr

/-- The value of `sizeof(MallocMetadata)` under the LP64 ABI: a `size_t`, two `bool`
padded to eight bytes, and four pointers. -/
def SIZEOF_MallocMetadata : Nat := 48

/-- A header all of whose bytes are zero. -/
def zero_header : MallocMetadata :=
  { size := 0, is_free := false, is_mmap := false,
    next_free := 0, prev_free := 0, heap_next := 0, heap_prev := 0 }

/-- The address `&dummy_free` of the sentinel of the free list (line 27), a global
object outside the heap. -/
def dummy_free : Nat := 64

/-- The value `(void*)(-1)` with which `sbrk` reports failure. -/
def SBRK_FAILED : Nat := SIZE_MOD - 1

/-- The value `MAP_FAILED`, which is `(void*)(-1)`. -/
def MAP_FAILED : Nat := SIZE_MOD - 1

/-- The ways in which a run leaves defined behaviour (or the fuel of a loop ends). -/
inductive Fault where
  | null_dereference
  | invalid_access
  | assertion_failed
  | missing_return
  | out_of_fuel
deriving DecidableEq, Repr

/-- The global variables of the allocator (lines 12, 29-32), the store of headers, and
the part of the operating system the allocator talks to: the program break with the
bounds within which `sbrk` may move it, the live mappings, and the addresses the next
calls of `mmap` return. -/
structure State where
  free_blocks : Nat
  free_bytes : Nat
  allocated_blocks : Nat
  allocated_bytes : Nat
  heap_head : Nat
  wilderness : Nat
  FIRST_ALLOC : Bool
  mem : Nat → MallocMetadata
  heap_base : Nat
  brk : Nat
  brk_limit : Nat
  maps : List (Nat × Nat)
  mmap_results : List Nat

/-! ## Memory and operating system -/

/-- A header at address `a` is `dummy_free`, lies in the heap between `heap_base` and
`brk`, or lies in one of the mapped regions. -/
def in_bounds (heap_base brk : Nat) (maps : List (Nat × Nat)) (a : Nat) : Bool :=
  decide (a = dummy_free) ||
  (decide (heap_base ≤ a) && decide (a + SIZEOF_MallocMetadata ≤ brk)) ||
  maps.any (fun r => decide (r.1 ≤ a) && decide (a + SIZEOF_MallocMetadata ≤ r.1 + r.2))

/-- A header at address `a` lies in memory the program may access. -/
def accessible (s : State) (a : Nat) : Bool :=
  in_bounds s.heap_base s.brk s.maps a

/-- Read the header `*a`. -/
def deref (s : State) (a : Nat) : Except Fault MallocMetadata :=
  if a = 0 then .error .null_dereference
  else if accessible s a then .ok (s.mem a)
  else .error .invalid_access

/-- The state in which the header at `a` has become `f` of its old value. -/
def write (s : State) (a : Nat) (f : MallocMetadata → MallocMetadata) : State :=
  { s with mem := Function.update s.mem a (f (s.mem a)) }

/-- Write fields of the header `*a`. -/
def assign (s : State) (a : Nat) (f : MallocMetadata → MallocMetadata) :
    Except Fault State :=
  if a = 0 then .error .null_dereference
  else if accessible s a then .ok (write s a f)
  else .error .invalid_access

/-- The heap-growth primitive `sbrk(increment)`; the increment is an `intptr_t`, so an
argument of `2 ^ 63` or more is negative. Returns the previous break, or `SBRK_FAILED`
and an unchanged break. -/
def sbrk (increment : Nat) (s : State) : Nat × State :=
  if increment < 2 ^ 63 then
    if s.brk + increment ≤ s.brk_limit then (s.brk, { s with brk := s.brk + increment })
    else (SBRK_FAILED, s)
  else
    if s.heap_base + (SIZE_MOD - increment) ≤ s.brk then
      (s.brk, { s with brk := s.brk - (SIZE_MOD - increment) })
    else (SBRK_FAILED, s)

/-- Values of `<sys/mman.h>` (Linux): protection bits and mapping flags. The sharing
type of a mapping is the part of the flags under `MAP_TYPE`. -/
def PROT_READ : Nat := 1

def PROT_WRITE : Nat := 2

def MAP_SHARED : Nat := 1

def MAP_PRIVATE : Nat := 2

def MAP_SHARED_VALIDATE : Nat := 3

def MAP_TYPE : Nat := 15

def MAP_ANONYMOUS : Nat := 32

/-- The page-mapping primitive `mmap(NULL, len, prot, flags, -1, 0)`. A call of length
zero, a call whose flags name no sharing type (one of `MAP_SHARED`, `MAP_PRIVATE`,
`MAP_SHARED_VALIDATE`), and a call without `MAP_ANONYMOUS` (the file descriptor is `-1`)
are rejected with `MAP_FAILED` and leave the state alone. Otherwise the operating system
answers with the next address of `mmap_results`, whose `len` bytes are then accessible
and zero, or with `MAP_FAILED`. -/
def mmap (len _prot flags : Nat) (s : State) : Nat × State :=
  if len = 0 ∨ flags &&& MAP_ANONYMOUS = 0 ∨
      ¬ (flags &&& MAP_TYPE = MAP_SHARED ∨ flags &&& MAP_TYPE = MAP_PRIVATE ∨
        flags &&& MAP_TYPE = MAP_SHARED_VALIDATE) then (MAP_FAILED, s)
  else
    match s.mmap_results with
    | [] => (MAP_FAILED, s)
    | a :: rest =>
      if a = MAP_FAILED then (MAP_FAILED, { s with mmap_results := rest })
      else
        (a, { s with
                mmap_results := rest
                maps := (a, len) :: s.maps
                mem := fun x => if a ≤ x ∧ x < a + len then zero_header else s.mem x })

/-- The unmapping primitive `munmap(addr, len)`: returns `0` and drops the mapping when
`addr` and `len` are those of a live mapping, a nonzero value otherwise. -/
def munmap (addr len : Nat) (s : State) : Nat × State :=
  if (addr, len) ∈ s.maps then (0, { s with maps := s.maps.erase (addr, len) })
  else (SIZE_MOD - 1, s)

/-! ## Helper functions (lines 38-123) -/

/-- Lines 38-41. -/
def align (size : Nat) : Nat :=
  if size % 8 = 0 then size else wmul (wadd (size / 8) 1) 8

/-- Lines 324-326. -/
def _size_meta_data : Nat := align SIZEOF_MallocMetadata

/-- Lines 43-45: both subtractions are unsigned. -/
def LARGE_ENOUGH (old_size size : Nat) : Bool :=
  decide (wsub (wsub old_size _size_meta_data) size ≥ 128)

/-- The loop of `addToFreeList` (lines 53-70), started at `iter`. -/
def addToFreeList_loop : Nat → Nat → Nat → State → Except Fault State
  | 0, _, _, _ => .error .out_of_fuel
  | fuel + 1, block, iter, s => do
    let i ← deref s iter
    if i.next_free ≠ 0 then
      let n ← deref s i.next_free
      let b ← deref s block
      if n.size > b.size then
        let s1 ← assign s block (fun h => { h with prev_free := iter })
        let i1 ← deref s1 iter
        let s2 ← assign s1 block (fun h => { h with next_free := i1.next_free })
        let i2 ← deref s2 iter
        let s3 ← assign s2 i2.next_free (fun h => { h with prev_free := block })
        assign s3 iter (fun h => { h with next_free := block })
      else
        addToFreeList_loop fuel block i.next_free s
    else
      let s1 ← assign s block (fun h => { h with next_free := 0 })
      let s2 ← assign s1 block (fun h => { h with prev_free := iter })
      assign s2 iter (fun h => { h with next_free := block })

/-- Lines 50-71. -/
def addToFreeList (fuel : Nat) (block : Nat) (s : State) : Except Fault State :=
  addToFreeList_loop fuel block dummy_free s

/-- Lines 76-81. -/
def removeFromFreeList (block : Nat) (s : State) : Except Fault State := do
  let b ← deref s block
  let s1 ← assign s b.prev_free (fun h => { h with next_free := b.next_free })
  let b1 ← deref s1 block
  let s2 ← assign s1 b1.next_free (fun h => { h with prev_free := b1.prev_free })
  let s3 ← assign s2 block (fun h => { h with prev_free := 0 })
  assign s3 block (fun h => { h with next_free := 0 })

/-- Lines 86-110. -/
def cutBlocks (fuel : Nat) (block : Nat) (wanted_size : Nat) (s : State) :
    Except Fault State := do
  let new_block := wadd (wadd block _size_meta_data) wanted_size
  let b ← deref s block
  let s1 ← assign s new_block
    (fun h => { h with size := wsub (wsub b.size wanted_size) _size_meta_data })
  let s2 ← assign s1 new_block (fun h => { h with is_free := true })
  let s3 ← assign s2 new_block (fun h => { h with is_mmap := false })
  let s4 ← addToFreeList fuel new_block s3
  let s5 ← assign s4 block (fun h => { h with size := wanted_size })
  let s6 ← removeFromFreeList block s5
  let s7 ← addToFreeList fuel block s6
  let s8 := { s7 with allocated_blocks := wadd s7.allocated_blocks 1 }
  let s9 := { s8 with allocated_bytes := wsub s8.allocated_bytes _size_meta_data }
  let b9 ← deref s9 block
  let s10 ← assign s9 new_block (fun h => { h with heap_next := b9.heap_next })
  let s11 ← assign s10 new_block (fun h => { h with heap_prev := block })
  assign s11 block (fun h => { h with heap_next := new_block })

/-- Lines 112-123: the body holds comments only. -/
def combineBlocks (_block : Nat) (s : State) : State := s

/-! ## Assignment functions (lines 126-326) -/

/-- Lines 128-137 of `smalloc`: `none` when this part returns `nullptr`. -/
def smalloc_first_alloc (s : State) : Option State :=
  if s.FIRST_ALLOC then
    let r := sbrk 0 s
    if r.1 = SBRK_FAILED then none
    else if r.1 % 8 ≠ 0 then
      let r1 := sbrk (if r.1 < 2 ^ 63 then 8 - r.1 % 8 else 8 + (SIZE_MOD - r.1) % 8) r.2
      if r1.1 = SBRK_FAILED then none else some r1.2
    else some r.2
  else some s

/-- Lines 146-156 of `smalloc`: the flags of the call of `mmap` are `MAP_ANONYMOUS`
alone, and its result is used without a check. -/
def smalloc_mmap (size : Nat) (s : State) : Except Fault (Nat × State) := do
  let r := mmap (wadd _size_meta_data size) (PROT_READ ||| PROT_WRITE) MAP_ANONYMOUS s
  let alloc := r.1
  let s1 ← assign r.2 alloc (fun h => { h with size := size })
  let s2 ← assign s1 alloc (fun h => { h with is_mmap := true })
  let s3 := { s2 with allocated_blocks := wadd s2.allocated_blocks 1 }
  let s4 := { s3 with allocated_bytes := wadd s3.allocated_bytes size }
  pure (wadd alloc _size_meta_data, s4)

/-- Lines 159-163 of `smalloc`: the first block of the free list, from `to_alloc` on,
whose size is at least `size`, or `nullptr`. -/
def smalloc_search : Nat → Nat → Nat → State → Except Fault Nat
  | 0, _, _, _ => .error .out_of_fuel
  | fuel + 1, size, to_alloc, s =>
    if to_alloc = 0 then .ok 0
    else do
      let t ← deref s to_alloc
      if t.size ≥ size then pure to_alloc
      else smalloc_search fuel size t.next_free s

/-- Lines 164-182 of `smalloc`: a block was found. -/
def smalloc_found (fuel : Nat) (size : Nat) (to_alloc : Nat) (s : State) :
    Except Fault (Nat × State) := do
  let t ← deref s to_alloc
  let s1 ← (if LARGE_ENOUGH t.size size then cutBlocks fuel to_alloc size s else pure s)
  let s2 ← assign s1 to_alloc (fun h => { h with is_free := false })
  let s3 := { s2 with free_blocks := wsub s2.free_blocks 1 }
  let t3 ← deref s3 to_alloc
  let s4 := { s3 with free_bytes := wsub s3.free_bytes t3.size }
  let s5 ← removeFromFreeList to_alloc s4
  pure (wadd to_alloc _size_meta_data, s5)

/-- Lines 186-200 of `smalloc`: the wilderness block is free and gets enlarged. -/
def smalloc_wilderness (size : Nat) (s : State) : Except Fault (Nat × State) := do
  let w ← deref s s.wilderness
  let missing_size := wsub size w.size
  let r := sbrk missing_size s
  if r.1 = SBRK_FAILED then pure (0, r.2)
  else
    let s1 := { r.2 with allocated_bytes := wadd r.2.allocated_bytes missing_size }
    let s2 ← assign s1 s1.wilderness (fun h => { h with size := wadd h.size missing_size })
    let s3 ← assign s2 s2.wilderness (fun h => { h with is_free := false })
    let s4 ← removeFromFreeList s3.wilderness s3
    pure (wadd s4.wilderness _size_meta_data, s4)

/-- Lines 203-229 of `smalloc`: a new block at the program break. -/
def smalloc_new (size : Nat) (s : State) : Except Fault (Nat × State) :=
  let r := sbrk 0 s
  let new_block := r.1
  if new_block = SBRK_FAILED then pure (0, r.2)
  else
    let r1 := sbrk (wadd _size_meta_data size) r.2
    if r1.1 = SBRK_FAILED then pure (0, r1.2)
    else do
      let s1 ← assign r1.2 new_block (fun h => { h with size := size })
      let s2 ← assign s1 new_block (fun h => { h with is_mmap := false })
      let s3 ← assign s2 new_block (fun h => { h with is_free := false })
      let s4 ← assign s3 new_block (fun h => { h with next_free := 0 })
      let s5 ← assign s4 new_block (fun h => { h with prev_free := 0 })
      let s6 ← assign s5 new_block (fun h => { h with heap_next := 0 })
      let s7 ← assign s6 new_block (fun h => { h with heap_prev := s6.wilderness })
      let s8 ← assign s7 s7.wilderness (fun h => { h with heap_next := new_block })
      let s9 := { s8 with wilderness := new_block }
      let s10 := { s9 with allocated_blocks := wadd s9.allocated_blocks 1 }
      let s11 := { s10 with allocated_bytes := wadd s10.allocated_bytes size }
      pure (wadd new_block _size_meta_data, s11)

/-- Lines 158-229 of `smalloc`: the request is served from the heap. -/
def smalloc_heap (fuel : Nat) (size : Nat) (s : State) : Except Fault (Nat × State) := do
  let d ← deref s dummy_free
  let to_alloc ← smalloc_search fuel size d.next_free s
  if to_alloc ≠ 0 then smalloc_found fuel size to_alloc s
  else
    let w ← deref s s.wilderness
    if w.is_free then smalloc_wilderness size s
    else smalloc_new size s

/-- Lines 126-231. -/
def smalloc (fuel : Nat) (size : Nat) (s : State) : Except Fault (Nat × State) :=
  match smalloc_first_alloc s with
  | none => pure (0, s)
  | some s1 =>
    if size = 0 ∨ size > MAX_ALLOC then pure (0, s1)
    else
      let size := align size
      if size ≥ MMAP_THRESHOLD then smalloc_mmap size s1
      else smalloc_heap fuel size s1

/-- The call `memset(p, 0, n)`: the `n` bytes from `p` on must lie in the heap or in a
mapped region, and every header stored in them becomes zero. -/
def memset_zero (p n : Nat) (s : State) : Except Fault State :=
  if n = 0 then pure s
  else if p = 0 then .error .null_dereference
  else if (decide (s.heap_base ≤ p) && decide (p + n ≤ s.brk)) ||
      s.maps.any (fun r => decide (r.1 ≤ p) && decide (p + n ≤ r.1 + r.2)) then
    pure { s with mem := fun x => if p ≤ x ∧ x < p + n then zero_header else s.mem x }
  else .error .invalid_access

/-- Lines 233-244: the header in front of `alloc` is read without a test of `alloc`. -/
def scalloc (fuel : Nat) (num size : Nat) (s : State) : Except Fault (Nat × State) := do
  let r ← smalloc fuel (wmul num size) s
  let alloc := r.1
  let m ← deref r.2 (wsub alloc _size_meta_data)
  if m.is_mmap then pure (alloc, r.2)
  else do
    let s1 ← memset_zero alloc (wmul num size) r.2
    pure (alloc, s1)

/-- Lines 246-276. The `assert` is compiled in. -/
def sfree (fuel : Nat) (p : Nat) (s : State) : Except Fault State :=
  if p = 0 then pure s
  else do
    let meta := wsub p _size_meta_data
    let m ← deref s meta
    if m.is_free then pure s
    else if m.is_mmap then
      let s1 := { s with allocated_blocks := wsub s.allocated_blocks 1 }
      let m1 ← deref s1 meta
      let s2 := { s1 with allocated_bytes := wsub s1.allocated_bytes m1.size }
      let m2 ← deref s2 meta
      let r := munmap meta (wadd m2.size _size_meta_data) s2
      if r.1 = 0 then pure r.2 else .error .assertion_failed
    else
      let s1 ← assign s meta (fun h => { h with is_free := true })
      let s2 ← addToFreeList fuel meta s1
      let s3 := { s2 with free_blocks := wadd s2.free_blocks 1 }
      let m3 ← deref s3 meta
      let s4 := { s3 with free_bytes := wadd s3.free_bytes m3.size }
      pure (combineBlocks meta s4)

/-- Lines 278-302: the body holds comments only, so control flows off the end of a
function that has to return a pointer. -/
def srealloc (_oldp : Nat) (_size : Nat) (_s : State) : Except Fault (Nat × State) :=
  .error .missing_return

/-- Lines 304-306. -/
def _num_free_blocks (s : State) : Nat := s.free_blocks

/-- Lines 308-310. -/
def _num_free_bytes (s : State) : Nat := s.free_bytes

/-- Lines 312-314. -/
def _num_allocated_blocks (s : State) : Nat := s.allocated_blocks

/-- Lines 316-318. -/
def _num_allocated_bytes (s : State) : Nat := s.allocated_bytes

/-- Lines 320-322. -/
def _num_meta_data_bytes (s : State) : Nat := wmul s.allocated_blocks _size_meta_data

/-! ## Observations used in the statements -/

/-- The spec's `align(n)`: the smallest multiple of 8 that is at least `n`, computed in
the natural numbers. -/
def align_spec (n : Nat) : Nat := (n + 7) / 8 * 8

/-- The addresses met when walking `next_free` from `a` until `nullptr`. -/
def free_list_from : Nat → State → Nat → List Nat
  | 0, _, _ => []
  | fuel + 1, s, a => if a = 0 then [] else a :: free_list_from fuel s (s.mem a).next_free

/-- The blocks of the free list, in list order. -/
def free_list (fuel : Nat) (s : State) : List Nat :=
  free_list_from fuel s (s.mem dummy_free).next_free

/-- The sum of the size fields of the blocks of the free list. -/
def free_list_bytes (fuel : Nat) (s : State) : Nat :=
  ((free_list fuel s).map (fun a => (s.mem a).size)).sum

/-- The addresses met when walking `heap_prev` from `a` until `nullptr`. -/
def heap_chain_from : Nat → State → Nat → List Nat
  | 0, _, _ => []
  | fuel + 1, s, a => if a = 0 then [] else a :: heap_chain_from fuel s (s.mem a).heap_prev

/-- The blocks of the heap chain, from the wilderness block downwards. -/
def heap_chain (fuel : Nat) (s : State) : List Nat :=
  heap_chain_from fuel s s.wilderness

/-- The free list from `a` on is exactly `l`: its blocks are accessible and linked by
`next_free`, and the last link is `nullptr`. -/
def FreeChain (s : State) : Nat → List Nat → Prop
  | a, [] => a = 0
  | a, b :: l => a = b ∧ b ≠ 0 ∧ accessible s b = true ∧ FreeChain s (s.mem b).next_free l

/-- The state with the break at zero: what `sbrk` leaves alone. -/
def no_brk (s : State) : State := { s with brk := 0 }

/-- A header without its free-list links. -/
def no_free_links (h : MallocMetadata) : MallocMetadata :=
  { h with next_free := 0, prev_free := 0 }

/-- The state without the free-list links of its headers: what `addToFreeList` and
`removeFromFreeList` leave alone. -/
def no_links (s : State) : State := { s with mem := fun x => no_free_links (s.mem x) }

/-- A function on headers that changes the free-list links only. -/
def LinksOnly (f : MallocMetadata → MallocMetadata) : Prop :=
  ∀ h, no_free_links (f h) = no_free_links h

/-- Block `b` is met when walking the heap chain from the wilderness block. -/
def in_heap_chain (s : State) (b : Nat) : Prop := ∃ n, b ∈ heap_chain n s

/-- What a request served from the heap leaves alone, seen from the returned block `b`:
the wilderness pointer and the mappings stay, `heap_prev` of a header stays or becomes
`b`, and `is_mmap` of a header stays or becomes `false`. -/
def HeapFrame (b : Nat) (s s1 : State) : Prop :=
  s1.wilderness = s.wilderness ∧ s1.mmap_results = s.mmap_results ∧ s1.maps = s.maps ∧
  ∀ x, ((s1.mem x).heap_prev = (s.mem x).heap_prev ∨ (s1.mem x).heap_prev = b) ∧
    ((s1.mem x).is_mmap = (s.mem x).is_mmap ∨ (s1.mem x).is_mmap = false)

/-- A function on headers that keeps `heap_prev` or sets it to `b`, and keeps `is_mmap`
or clears it. -/
def HeapOnly (b : Nat) (f : MallocMetadata → MallocMetadata) : Prop :=
  ∀ h, ((f h).heap_prev = h.heap_prev ∨ (f h).heap_prev = b) ∧
    ((f h).is_mmap = h.is_mmap ∨ (f h).is_mmap = false)

/-- The free list from `a` on is exactly `l` and is doubly linked: its blocks are
accessible, each `next_free` leads to the next block and the last one is `nullptr`, and
each `prev_free` leads back, the first one to `p`. -/
def FreeLinked (s : State) : Nat → Nat → List Nat → Prop
  | _, a, [] => a = 0
  | p, a, b :: l =>
    a = b ∧ b ≠ 0 ∧ accessible s b = true ∧ (s.mem b).prev_free = p ∧
      FreeLinked s b (s.mem b).next_free l

/-- The addresses met when walking `heap_next` from `a` until `nullptr`. -/
def heap_walk_from : Nat → State → Nat → List Nat
  | 0, _, _ => []
  | fuel + 1, s, a => if a = 0 then [] else a :: heap_walk_from fuel s (s.mem a).heap_next

/-- The sum of the size fields of the listed blocks. -/
def sizes_sum (s : State) (l : List Nat) : Nat := (l.map (fun a => (s.mem a).size)).sum

/-! ## States used in the examples -/

/-- The store that holds the listed headers and zeros elsewhere. -/
def store_of (l : List (Nat × MallocMetadata)) : Nat → MallocMetadata :=
  fun a => match l.lookup a with
    | some h => h
    | none => zero_header

/-- The state in which the program starts: the globals are zero-initialised,
`FIRST_ALLOC` is `true`, and the heap is empty. -/
def initial_state (brk limit : Nat) (results : List Nat) : State :=
  { free_blocks := 0, free_bytes := 0, allocated_blocks := 0, allocated_bytes := 0,
    heap_head := 0, wilderness := 0, FIRST_ALLOC := true,
    mem := fun _ => zero_header,
    heap_base := brk, brk := brk, brk_limit := limit, maps := [], mmap_results := results }

/-- What the statistics functions, a walk over the free list and a walk over the heap
chain show of a state. -/
structure View where
  free_blocks : Nat
  free_bytes : Nat
  allocated_blocks : Nat
  allocated_bytes : Nat
  free_list : List Nat
  free_list_bytes : Nat
  heap_chain : List Nat
  wilderness : Nat
  brk : Nat
deriving DecidableEq, Repr

/-- The view of a state; `fuel` bounds both walks. -/
def view (fuel : Nat) (s : State) : View :=
  { free_blocks := _num_free_blocks s
    free_bytes := _num_free_bytes s
    allocated_blocks := _num_allocated_blocks s
    allocated_bytes := _num_allocated_bytes s
    free_list := free_list fuel s
    free_list_bytes := free_list_bytes fuel s
    heap_chain := heap_chain fuel s
    wilderness := s.wilderness
    brk := s.brk }

deriving instance DecidableEq for Except

/-- A header of a heap block. -/
def heap_header (size : Nat) (is_free : Bool) (next_free prev_free heap_next heap_prev : Nat) :
    MallocMetadata :=
  { size := size, is_free := is_free, is_mmap := false, next_free := next_free,
    prev_free := prev_free, heap_next := heap_next, heap_prev := heap_prev }

/-- A state whose heap starts at 4096 and holds the listed headers; the break may grow
up to 1000000 and nothing is mapped. -/
def heap_state (free_blocks free_bytes allocated_blocks allocated_bytes wilderness brk : Nat)
    (l : List (Nat × MallocMetadata)) : State :=
  { free_blocks := free_blocks, free_bytes := free_bytes,
    allocated_blocks := allocated_blocks, allocated_bytes := allocated_bytes,
    heap_head := 0, wilderness := wilderness, FIRST_ALLOC := true, mem := store_of l,
    heap_base := 4096, brk := brk, brk_limit := 1000000, maps := [], mmap_results := [] }

/-- One allocated block of 64 bytes at 4096, the wilderness; no free block. -/
def heap_one : State :=
  heap_state 0 0 1 64 4096 4208 [(4096, heap_header 64 false 0 0 0 0)]

/-- Three adjacent allocated blocks of 64 bytes at 4096, 4208 and 4320; the last one
is the wilderness. -/
def heap_three : State :=
  heap_state 0 0 3 192 4320 4432
    [(4096, heap_header 64 false 0 0 4208 0),
     (4208, heap_header 64 false 0 0 4320 4096),
     (4320, heap_header 64 false 0 0 0 4208)]

/-- A free block of 64 bytes at 4096, the only entry of the free list, followed by the
allocated wilderness block of 64 bytes at 4208. -/
def heap_exact_fit : State :=
  heap_state 1 64 2 128 4208 4320
    [(dummy_free, heap_header 0 false 4096 0 0 0),
     (4096, heap_header 64 true 0 dummy_free 4208 0),
     (4208, heap_header 64 false 0 0 0 4096)]

/-- An allocated block of 64 bytes at 4096, followed by the free wilderness block of
16 bytes at 4208, the only entry of the free list. -/
def heap_free_wilderness : State :=
  heap_state 1 16 2 80 4208 4272
    [(dummy_free, heap_header 0 false 4208 0 0 0),
     (4096, heap_header 64 false 0 0 4208 0),
     (4208, heap_header 16 true 0 dummy_free 0 4096)]

/-- Four blocks: free of 1024 bytes at 4096, allocated of 64 at 5168, free of 2048 at
5280, and the allocated wilderness of 64 at 7376. The free list is 4096, 5280. -/
def heap_two_free : State :=
  heap_state 2 3072 4 3200 7376 7488
    [(dummy_free, heap_header 0 false 4096 0 0 0),
     (4096, heap_header 1024 true 5280 dummy_free 5168 0),
     (5168, heap_header 64 false 0 0 5280 4096),
     (5280, heap_header 2048 true 0 4096 7376 5168),
     (7376, heap_header 64 false 0 0 0 5280)]

/-- Three blocks: free of 32 bytes at 4096, allocated of 64 at 4176, and the free
wilderness of 16 bytes at 4288. The free list is 4288, 4096. -/
def heap_small_free : State :=
  heap_state 2 48 3 112 4288 4352
    [(dummy_free, heap_header 0 false 4288 0 0 0),
     (4096, heap_header 32 true 0 4288 4176 0),
     (4176, heap_header 64 false 0 0 4288 4096),
     (4288, heap_header 16 true 4096 dummy_free 0 4176)]

/-- The state `heap_one` with an operating system that answers the next admissible call
of `mmap` with 65536. -/
def heap_one_mappable : State := { heap_one with mmap_results := [65536] }

/-- A free block of 1024 bytes at 4096, the only entry of the free list, followed by the
allocated wilderness block of 64 bytes at 5168. -/
def heap_free_tail : State :=
  heap_state 1 1024 2 1088 5168 5280
    [(dummy_free, heap_header 0 false 4096 0 0 0),
     (4096, heap_header 1024 true 0 dummy_free 5168 0),
     (5168, heap_header 64 false 0 0 0 4096)]

/-- Three blocks: free of 2048 bytes at 4096, allocated of 64 at 6192, and the free
wilderness of 1024 bytes at 6304. The free list is 6304, 4096. -/
def heap_big_wilderness : State :=
  heap_state 2 3072 3 3136 6304 7376
    [(dummy_free, heap_header 0 false 6304 0 0 0),
     (4096, heap_header 2048 true 0 6304 6192 0),
     (6192, heap_header 64 false 0 0 6304 4096),
     (6304, heap_header 1024 true 4096 dummy_free 0 6192)]

/-- The state `heap_free_wilderness` in which the program break cannot grow. -/
def heap_free_wilderness_full : State := { heap_free_wilderness with brk_limit := 4272 }

/-! ## Basic facts -/

theorem bind_ok {α β : Type} {x : Except Fault α} {f : α → Except Fault β} {v : β} :
    (x >>= f) = .ok v ↔ ∃ a, x = .ok a ∧ f a = .ok v := by
  cases x <;> simp [bind, Except.bind]

theorem assign_ok {s s1 : State} {a : Nat} {f : MallocMetadata → MallocMetadata}
    (h : assign s a f = .ok s1) :
    a ≠ 0 ∧ accessible s a = true ∧ s1 = write s a f := by
  unfold assign at h
  split_ifs at h with h0 h1
  exact ⟨h0, h1, by injection h with h; exact h.symm⟩

theorem deref_ok {s : State} {a : Nat} {m : MallocMetadata} (h : deref s a = .ok m) :
    a ≠ 0 ∧ accessible s a = true ∧ m = s.mem a := by
  unfold deref at h
  split_ifs at h with h0 h1
  exact ⟨h0, h1, by injection h with h; exact h.symm⟩

theorem assign_of_accessible (s : State) (a : Nat) (f : MallocMetadata → MallocMetadata)
    (h0 : a ≠ 0) (h1 : accessible s a = true) :
    assign s a f = .ok (write s a f) := by
  unfold assign
  rw [if_neg h0, if_pos h1]

theorem deref_of_accessible (s : State) (a : Nat) (h0 : a ≠ 0)
    (h1 : accessible s a = true) : deref s a = .ok (s.mem a) := by
  unfold deref
  rw [if_neg h0, if_pos h1]

theorem sbrk_no_brk (n : Nat) (s : State) : no_brk (sbrk n s).2 = no_brk s := by
  unfold sbrk
  split_ifs <;> rfl

theorem smalloc_first_alloc_no_brk {s s1 : State} (h : smalloc_first_alloc s = some s1) :
    no_brk s1 = no_brk s := by
  unfold smalloc_first_alloc at h
  by_cases hF : s.FIRST_ALLOC = true
  · rw [if_pos hF] at h
    dsimp only at h
    split_ifs at h <;> injection h with h <;> subst h <;> simp only [sbrk_no_brk]
  · rw [if_neg hF] at h
    injection h with h
    subst h
    rfl

theorem align_le_of_le_max {size : Nat} (h : size ≤ MAX_ALLOC) : align size ≤ MAX_ALLOC := by
  unfold align wmul wadd SIZE_MOD
  unfold MAX_ALLOC at *
  split_ifs <;> omega

theorem align_eq_align_spec {size : Nat} (h : size + 8 ≤ SIZE_MOD) :
    align size = align_spec size := by
  unfold align align_spec wmul wadd
  unfold SIZE_MOD at *
  split_ifs <;> omega

/-! ## Writes and the free-list links -/

theorem accessible_write (s : State) (a x : Nat) (f : MallocMetadata → MallocMetadata) :
    accessible (write s a f) x = accessible s x := rfl

theorem write_mem (s : State) (a x : Nat) (f : MallocMetadata → MallocMetadata) :
    (write s a f).mem x = if x = a then f (s.mem a) else s.mem x := by
  unfold write
  simp only [Function.update]
  split_ifs with h
  · subst h; rfl
  · rfl

theorem dummy_free_ne_zero : dummy_free ≠ 0 := by decide

theorem accessible_dummy_free (s : State) : accessible s dummy_free = true := by
  simp [accessible, in_bounds]

theorem no_links_write (s : State) (a : Nat) (f : MallocMetadata → MallocMetadata)
    (hf : LinksOnly f) : no_links (write s a f) = no_links s := by
  unfold no_links
  have : (fun x => no_free_links ((write s a f).mem x)) = fun x => no_free_links (s.mem x) := by
    funext x
    rw [write_mem]
    split_ifs with h
    · subst h; exact hf _
    · rfl
  rw [this]
  rfl

theorem no_links_assign {s s1 : State} {a : Nat} {f : MallocMetadata → MallocMetadata}
    (hf : LinksOnly f) (h : assign s a f = .ok s1) : no_links s1 = no_links s := by
  obtain ⟨_, _, rfl⟩ := assign_ok h
  exact no_links_write s a f hf

theorem linksOnly_next (v : Nat) : LinksOnly (fun h => { h with next_free := v }) := fun _ => rfl
theorem linksOnly_prev (v : Nat) : LinksOnly (fun h => { h with prev_free := v }) := fun _ => rfl

theorem addToFreeList_loop_no_links (fuel : Nat) : ∀ (block iter : Nat) (s s1 : State),
    addToFreeList_loop fuel block iter s = .ok s1 → no_links s1 = no_links s := by
  induction fuel with
  | zero => intro block iter s s1 h; simp [addToFreeList_loop] at h
  | succ n ih =>
    intro block iter s s1 h
    unfold addToFreeList_loop at h
    simp only [bind_ok] at h
    obtain ⟨i, hi, h⟩ := h
    split_ifs at h with hn
    · simp only [bind_ok] at h
      obtain ⟨n1, hn1, b, hb, h⟩ := h
      split_ifs at h with hsz
      · simp only [bind_ok] at h
        obtain ⟨t1, h1, i1, hi1, t2, h2, i2, hi2, t3, h3, h4⟩ := h
        rw [no_links_assign (linksOnly_next _) h4, no_links_assign (linksOnly_prev _) h3,
          no_links_assign (linksOnly_next _) h2, no_links_assign (linksOnly_prev _) h1]
      · exact ih _ _ _ _ h
    · simp only [bind_ok] at h
      obtain ⟨t1, h1, t2, h2, h3⟩ := h
      rw [no_links_assign (linksOnly_next _) h3, no_links_assign (linksOnly_prev _) h2,
        no_links_assign (linksOnly_next _) h1]

theorem accessible_of_no_links {s s1 : State} (h : no_links s1 = no_links s) (x : Nat) :
    accessible s1 x = accessible s x := by
  have h1 : (no_links s1).heap_base = (no_links s).heap_base := by rw [h]
  have h2 : (no_links s1).brk = (no_links s).brk := by rw [h]
  have h3 : (no_links s1).maps = (no_links s).maps := by rw [h]
  change s1.heap_base = s.heap_base at h1
  change s1.brk = s.brk at h2
  change s1.maps = s.maps at h3
  unfold accessible
  rw [h1, h2, h3]

theorem header_of_no_links {s s1 : State} (h : no_links s1 = no_links s) (x : Nat) :
    no_free_links (s1.mem x) = no_free_links (s.mem x) := by
  have h1 : (no_links s1).mem x = (no_links s).mem x := by rw [h]
  exact h1

theorem addToFreeList_loop_total : ∀ (l : List Nat) (fuel block iter : Nat) (s : State),
    iter ≠ 0 → accessible s iter = true → block ≠ 0 → accessible s block = true →
    FreeChain s (s.mem iter).next_free l → l.length < fuel →
    ∃ s1, addToFreeList_loop fuel block iter s = .ok s1 := by
  intro l
  induction l with
  | nil =>
    intro fuel block iter s hi hia hb hba hl hf
    obtain ⟨n, rfl⟩ : ∃ n, fuel = n + 1 := ⟨fuel - 1, by simp at hf; omega⟩
    have hnext : (s.mem iter).next_free = 0 := hl
    unfold addToFreeList_loop
    simp [deref_of_accessible, assign_of_accessible, accessible_write, hi, hia, hb, hba, hnext,
      bind, Except.bind]
  | cons c l ih =>
    intro fuel block iter s hi hia hb hba hl hf
    obtain ⟨n, rfl⟩ : ∃ n, fuel = n + 1 := ⟨fuel - 1, by simp at hf; omega⟩
    obtain ⟨hc, hc0, hca, hl1⟩ := hl
    unfold addToFreeList_loop
    simp only [deref_of_accessible s iter hi hia, bind, Except.bind, hc, hc0, ne_eq,
      not_false_eq_true, if_true, deref_of_accessible s c hc0 hca, deref_of_accessible s block hb hba]
    split_ifs with hsz
    · have e1 : assign s block (fun h => { h with prev_free := iter }) = .ok (write s block (fun h => { h with prev_free := iter })) :=
        assign_of_accessible _ _ _ hb hba
      simp only [e1]
      set s1 := write s block (fun h => { h with prev_free := iter }) with hs1
      have e2 : deref s1 iter = .ok (s1.mem iter) := deref_of_accessible _ _ hi hia
      simp only [e2]
      have e3 : assign s1 block (fun h => { h with next_free := (s1.mem iter).next_free }) = .ok (write s1 block (fun h => { h with next_free := (s1.mem iter).next_free })) :=
        assign_of_accessible _ _ _ hb hba
      simp only [e3]
      set s2 := write s1 block (fun h => { h with next_free := (s1.mem iter).next_free }) with hs2
      have e4 : deref s2 iter = .ok (s2.mem iter) := deref_of_accessible _ _ hi hia
      simp only [e4]
      have hnx1 : (s1.mem iter).next_free = c := by
        rw [hs1, write_mem]
        split_ifs with hib
        · subst hib; exact hc
        · exact hc
      have hnx : (s2.mem iter).next_free = c := by
        rw [hs2, write_mem]
        split_ifs with hib
        · exact hnx1
        · exact hnx1
      rw [hnx]
      have e5 : assign s2 c (fun h => { h with prev_free := block }) = .ok (write s2 c (fun h => { h with prev_free := block })) :=
        assign_of_accessible _ _ _ hc0 hca
      simp only [e5]
      exact ⟨_, assign_of_accessible _ _ _ hi hia⟩
    · exact ih n block c s hc0 hca hb hba hl1 (by simp at hf; omega)

theorem size_meta_data_eq : _size_meta_data = 48 := by decide

theorem freeChain_congr {s s1 : State} (hacc : ∀ x, accessible s1 x = accessible s x)
    (hnext : ∀ x, (s1.mem x).next_free = (s.mem x).next_free) :
    ∀ (l : List Nat) (a : Nat), FreeChain s a l → FreeChain s1 a l := by
  intro l
  induction l with
  | nil => intro a h; exact h
  | cons c l ih =>
    intro a h
    obtain ⟨h1, h2, h3, h4⟩ := h
    refine ⟨h1, h2, ?_, ?_⟩
    · rw [hacc]; exact h3
    · rw [hnext]; exact ih _ h4

theorem is_free_of_no_links {s s1 : State} (h : no_links s1 = no_links s) (x : Nat) :
    (s1.mem x).is_free = (s.mem x).is_free := by
  have h1 := congrArg MallocMetadata.is_free (header_of_no_links h x)
  exact h1

/-! ## The first call -/

theorem smalloc_first_alloc_fields {s s0 : State} (h : smalloc_first_alloc s = some s0) :
    (s0.free_blocks = s.free_blocks ∧ s0.free_bytes = s.free_bytes ∧
      s0.allocated_blocks = s.allocated_blocks ∧ s0.allocated_bytes = s.allocated_bytes) ∧
    (s0.heap_head = s.heap_head ∧ s0.wilderness = s.wilderness ∧
      s0.mmap_results = s.mmap_results ∧ s0.maps = s.maps) ∧
    s0.mem = s.mem ∧ s0.heap_base = s.heap_base ∧ s0.brk_limit = s.brk_limit ∧
    s0.FIRST_ALLOC = s.FIRST_ALLOC := by
  have hfr := smalloc_first_alloc_no_brk h
  have e1 := congrArg State.free_blocks hfr
  have e2 := congrArg State.free_bytes hfr
  have e3 := congrArg State.allocated_blocks hfr
  have e4 := congrArg State.allocated_bytes hfr
  have e5 := congrArg State.heap_head hfr
  have e6 := congrArg State.wilderness hfr
  have e7 := congrArg State.mmap_results hfr
  have e8 := congrArg State.maps hfr
  have e9 := congrArg State.mem hfr
  have e10 := congrArg State.heap_base hfr
  have e11 := congrArg State.brk_limit hfr
  have e12 := congrArg State.FIRST_ALLOC hfr
  exact ⟨⟨e1, e2, e3, e4⟩, ⟨e5, e6, e7, e8⟩, e9, e10, e11, e12⟩

/-! ## The heap path -/

theorem heapFrame_refl (b : Nat) (s : State) : HeapFrame b s s :=
  ⟨rfl, rfl, rfl, fun _ => ⟨Or.inl rfl, Or.inl rfl⟩⟩

theorem heapFrame_trans {b : Nat} {s s1 s2 : State} (h1 : HeapFrame b s s1)
    (h2 : HeapFrame b s1 s2) : HeapFrame b s s2 := by
  obtain ⟨a1, a2, a3, a4⟩ := h1
  obtain ⟨b1, b2, b3, b4⟩ := h2
  refine ⟨b1.trans a1, b2.trans a2, b3.trans a3, fun x => ⟨?_, ?_⟩⟩
  · rcases (b4 x).1 with h | h
    · rw [h]; exact (a4 x).1
    · exact Or.inr h
  · rcases (b4 x).2 with h | h
    · rw [h]; exact (a4 x).2
    · exact Or.inr h

theorem heapFrame_of_no_links {b : Nat} {s s1 : State} (h : no_links s1 = no_links s) :
    HeapFrame b s s1 := by
  have e1 := congrArg State.wilderness h
  have e2 := congrArg State.mmap_results h
  have e3 := congrArg State.maps h
  refine ⟨e1, e2, e3, fun x => ?_⟩
  have e4 := header_of_no_links h x
  have e5 := congrArg MallocMetadata.heap_prev e4
  have e6 := congrArg MallocMetadata.is_mmap e4
  exact ⟨Or.inl e5, Or.inl e6⟩

theorem heapFrame_of_no_brk {b : Nat} {s s1 : State} (h : no_brk s1 = no_brk s) :
    HeapFrame b s s1 := by
  have e1 := congrArg State.wilderness h
  have e2 := congrArg State.mmap_results h
  have e3 := congrArg State.maps h
  have e4 := congrArg State.mem h
  change s1.mem = s.mem at e4
  refine ⟨e1, e2, e3, fun x => ?_⟩
  rw [e4]
  exact ⟨Or.inl rfl, Or.inl rfl⟩

theorem heapFrame_assign {b : Nat} {s s1 : State} {a : Nat}
    {f : MallocMetadata → MallocMetadata} (hf : HeapOnly b f) (h : assign s a f = .ok s1) :
    HeapFrame b s s1 := by
  obtain ⟨_, _, rfl⟩ := assign_ok h
  refine ⟨rfl, rfl, rfl, fun x => ?_⟩
  rw [write_mem]
  split_ifs with hx
  · subst hx; exact hf _
  · exact ⟨Or.inl rfl, Or.inl rfl⟩

theorem removeFromFreeList_no_links {block : Nat} {s s1 : State}
    (h : removeFromFreeList block s = .ok s1) : no_links s1 = no_links s := by
  unfold removeFromFreeList at h
  simp only [bind_ok] at h
  obtain ⟨b, _, t1, h1, b1, _, t2, h2, t3, h3, h4⟩ := h
  rw [no_links_assign (linksOnly_next _) h4, no_links_assign (linksOnly_prev _) h3,
    no_links_assign (linksOnly_prev _) h2, no_links_assign (linksOnly_next _) h1]

theorem heapOnly_size (b v : Nat) : HeapOnly b (fun h => { h with size := v }) :=
  fun _ => ⟨Or.inl rfl, Or.inl rfl⟩

theorem heapOnly_is_free (b : Nat) (v : Bool) : HeapOnly b (fun h => { h with is_free := v }) :=
  fun _ => ⟨Or.inl rfl, Or.inl rfl⟩

theorem heapOnly_is_mmap (b : Nat) : HeapOnly b (fun h => { h with is_mmap := false }) :=
  fun _ => ⟨Or.inl rfl, Or.inr rfl⟩

theorem heapOnly_next_free (b v : Nat) : HeapOnly b (fun h => { h with next_free := v }) :=
  fun _ => ⟨Or.inl rfl, Or.inl rfl⟩

theorem heapOnly_prev_free (b v : Nat) : HeapOnly b (fun h => { h with prev_free := v }) :=
  fun _ => ⟨Or.inl rfl, Or.inl rfl⟩

theorem heapOnly_heap_next (b v : Nat) : HeapOnly b (fun h => { h with heap_next := v }) :=
  fun _ => ⟨Or.inl rfl, Or.inl rfl⟩

theorem heapOnly_heap_prev (b : Nat) : HeapOnly b (fun h => { h with heap_prev := b }) :=
  fun _ => ⟨Or.inr rfl, Or.inl rfl⟩

theorem cutBlocks_heapFrame {fuel block wanted : Nat} {s s1 : State}
    (h : cutBlocks fuel block wanted s = .ok s1) : HeapFrame block s s1 := by
  unfold cutBlocks at h
  simp only [bind_ok] at h
  obtain ⟨b, _, t1, h1, t2, h2, t3, h3, t4, h4, t5, h5, t6, h6, t7, h7, b9, _, t10, h10,
    t11, h11, h12⟩ := h
  have f1 := heapFrame_assign (heapOnly_size block _) h1
  have f2 := heapFrame_assign (heapOnly_is_free block _) h2
  have f3 := heapFrame_assign (heapOnly_is_mmap block) h3
  have f4 : HeapFrame block t3 t4 :=
    heapFrame_of_no_links (addToFreeList_loop_no_links _ _ _ _ _ h4)
  have f5 := heapFrame_assign (heapOnly_size block _) h5
  have f6 : HeapFrame block t5 t6 := heapFrame_of_no_links (removeFromFreeList_no_links h6)
  have f7 : HeapFrame block t6 t7 :=
    heapFrame_of_no_links (addToFreeList_loop_no_links _ _ _ _ _ h7)
  have f10 := heapFrame_assign (heapOnly_heap_next block _) h10
  have f11 := heapFrame_assign (heapOnly_heap_prev block) h11
  have f12 := heapFrame_assign (heapOnly_heap_next block _) h12
  have f79 : HeapFrame block t7 t10 := by
    obtain ⟨a1, a2, a3, a4⟩ := f10
    exact ⟨a1, a2, a3, a4⟩
  exact heapFrame_trans f1 (heapFrame_trans f2 (heapFrame_trans f3 (heapFrame_trans f4
    (heapFrame_trans f5 (heapFrame_trans f6 (heapFrame_trans f7 (heapFrame_trans f79
    (heapFrame_trans f11 f12))))))))

theorem smalloc_found_heapFrame {fuel size to_alloc p : Nat} {s s1 : State}
    (h : smalloc_found fuel size to_alloc s = .ok (p, s1)) :
    p = wadd to_alloc _size_meta_data ∧ HeapFrame to_alloc s s1 := by
  unfold smalloc_found at h
  simp only [bind_ok] at h
  obtain ⟨t, _, t1, h1, t2, h2, t3, _, t5, h5, h6⟩ := h
  have f1 : HeapFrame to_alloc s t1 := by
    split_ifs at h1
    · exact cutBlocks_heapFrame h1
    · injection h1 with h1
      subst h1
      exact heapFrame_refl _ _
  have f2 := heapFrame_assign (heapOnly_is_free to_alloc _) h2
  have f5 : HeapFrame to_alloc t2 t5 := by
    obtain ⟨a1, a2, a3, a4⟩ := @heapFrame_of_no_links to_alloc _ _ (removeFromFreeList_no_links h5)
    exact ⟨a1, a2, a3, a4⟩
  injection h6 with h6
  injection h6 with h7 h8
  subst h8
  exact ⟨h7.symm, heapFrame_trans f1 (heapFrame_trans f2 f5)⟩

theorem smalloc_search_mem {s s0 : State} (hmem : s0.mem = s.mem) (size : Nat) :
    ∀ (l : List Nat) (fuel a t : Nat), FreeChain s a l →
      smalloc_search fuel size a s0 = .ok t → t ≠ 0 → t ∈ l := by
  intro l
  induction l with
  | nil =>
    intro fuel a t hl h ht
    have ha : a = 0 := hl
    subst ha
    cases fuel with
    | zero => simp [smalloc_search] at h
    | succ n =>
      unfold smalloc_search at h
      rw [if_pos rfl] at h
      injection h with h
      exact absurd h.symm ht
  | cons c l ih =>
    intro fuel a t hl h ht
    obtain ⟨hc, hc0, _, hl1⟩ := hl
    subst hc
    cases fuel with
    | zero => simp [smalloc_search] at h
    | succ n =>
      unfold smalloc_search at h
      rw [if_neg hc0] at h
      simp only [bind_ok] at h
      obtain ⟨m, hm, h⟩ := h
      obtain ⟨_, _, rfl⟩ := deref_ok hm
      split_ifs at h
      · injection h with h
        subst h
        exact List.mem_cons_self _ _
      · rw [hmem] at h
        exact List.mem_cons_of_mem _ (ih n _ t hl1 h ht)

theorem heap_chain_from_ne_zero (s : State) : ∀ (n a b : Nat),
    b ∈ heap_chain_from n s a → b ≠ 0 := by
  intro n
  induction n with
  | zero => intro a b h; simp [heap_chain_from] at h
  | succ n ih =>
    intro a b h
    unfold heap_chain_from at h
    split_ifs at h with ha
    · simp at h
    · rcases List.mem_cons.1 h with h | h
      · rw [h]; exact ha
      · exact ih _ _ h

theorem heap_chain_from_frame {b : Nat} {s s1 : State}
    (hf : ∀ x, (s1.mem x).heap_prev = (s.mem x).heap_prev ∨ (s1.mem x).heap_prev = b) :
    ∀ (n a : Nat), b ∈ heap_chain_from n s a → b ∈ heap_chain_from n s1 a := by
  intro n
  induction n with
  | zero => intro a h; simp [heap_chain_from] at h
  | succ n ih =>
    intro a h
    unfold heap_chain_from at h ⊢
    split_ifs at h ⊢ with ha
    · simp at h
    · rcases List.mem_cons.1 h with h | h
      · rw [h]; exact List.mem_cons_self _ _
      · apply List.mem_cons_of_mem
        rcases hf a with e | e
        · rw [e]; exact ih _ h
        · rw [e]
          have hb0 := heap_chain_from_ne_zero s _ _ _ h
          cases n with
          | zero => simp [heap_chain_from] at h
          | succ m =>
            unfold heap_chain_from
            rw [if_neg hb0]
            exact List.mem_cons_self _ _

theorem in_heap_chain_frame {b : Nat} {s s1 : State} (hf : HeapFrame b s s1)
    (h : in_heap_chain s b) : in_heap_chain s1 b := by
  obtain ⟨n, hn⟩ := h
  refine ⟨n, ?_⟩
  unfold heap_chain at hn ⊢
  rw [hf.1]
  exact heap_chain_from_frame (fun x => (hf.2.2.2 x).1) n _ hn

theorem is_mmap_frame {b : Nat} {s s1 : State} (hf : HeapFrame b s s1) (x : Nat)
    (h : (s.mem x).is_mmap = false) : (s1.mem x).is_mmap = false := by
  rcases (hf.2.2.2 x).2 with e | e
  · rw [e]; exact h
  · exact e

theorem in_heap_chain_wilderness (s : State) (h : s.wilderness ≠ 0) :
    in_heap_chain s s.wilderness := by
  refine ⟨1, ?_⟩
  unfold heap_chain heap_chain_from
  rw [if_neg h]
  exact List.mem_cons_self _ _

theorem smalloc_wilderness_heapFrame {size p : Nat} {s s1 : State}
    (h : smalloc_wilderness size s = .ok (p, s1)) (hp : p ≠ 0) :
    p = wadd s.wilderness _size_meta_data ∧ s.wilderness ≠ 0 ∧
      HeapFrame s.wilderness s s1 := by
  unfold smalloc_wilderness at h
  simp only [bind_ok] at h
  obtain ⟨w, hw, h⟩ := h
  obtain ⟨hw0, _, _⟩ := deref_ok hw
  split_ifs at h with hfail
  · injection h with h
    injection h with h1 h2
    exact absurd h1.symm hp
  · simp only [bind_ok] at h
    obtain ⟨t2, h2, t3, h3, t4, h4, h5⟩ := h
    have f0 : HeapFrame s.wilderness s (sbrk (wsub size w.size) s).2 :=
      heapFrame_of_no_brk (sbrk_no_brk _ _)
    have f2 := heapFrame_assign (heapOnly_size s.wilderness _) h2
    have f2' : HeapFrame s.wilderness (sbrk (wsub size w.size) s).2 t2 := by
      obtain ⟨a1, a2, a3, a4⟩ := f2
      exact ⟨a1, a2, a3, a4⟩
    have f3 := heapFrame_assign (heapOnly_is_free s.wilderness _) h3
    have f4 : HeapFrame s.wilderness t3 t4 :=
      heapFrame_of_no_links (removeFromFreeList_no_links h4)
    have f := heapFrame_trans f0 (heapFrame_trans f2' (heapFrame_trans f3 f4))
    injection h5 with h5
    injection h5 with h6 h7
    subst h7
    refine ⟨?_, hw0, f⟩
    rw [← h6, f.1]

theorem smalloc_new_block {size p : Nat} {s s1 : State}
    (h : smalloc_new size s = .ok (p, s1)) (hp : p ≠ 0) :
    ∃ b, p = wadd b _size_meta_data ∧ b ≠ 0 ∧ s1.wilderness = b ∧
      (s1.mem b).is_mmap = false ∧ s1.mmap_results = s.mmap_results ∧ s1.maps = s.maps := by
  unfold smalloc_new at h
  dsimp only at h
  split_ifs at h with hf1 hf2
  · injection h with h
    injection h with h1 h2
    exact absurd h1.symm hp
  · injection h with h
    injection h with h1 h2
    exact absurd h1.symm hp
  · simp only [bind_ok] at h
    obtain ⟨t1, h1, t2, h2, t3, h3, t4, h4, t5, h5, t6, h6, t7, h7, t8, h8, h9⟩ := h
    obtain ⟨hb0, _, _⟩ := assign_ok h1
    have e0 : no_brk (sbrk (wadd _size_meta_data size) (sbrk 0 s).2).2 = no_brk s := by
      rw [sbrk_no_brk, sbrk_no_brk]
    have f0 : HeapFrame s.wilderness s (sbrk (wadd _size_meta_data size) (sbrk 0 s).2).2 :=
      heapFrame_of_no_brk e0
    have f1 := heapFrame_trans f0 (heapFrame_assign (heapOnly_size s.wilderness _) h1)
    have f2 := heapFrame_trans f1 (heapFrame_assign (heapOnly_is_mmap s.wilderness) h2)
    have f3 := heapFrame_trans f2 (heapFrame_assign (heapOnly_is_free s.wilderness _) h3)
    have f4 := heapFrame_trans f3 (heapFrame_assign (heapOnly_next_free s.wilderness _) h4)
    have f5 := heapFrame_trans f4 (heapFrame_assign (heapOnly_prev_free s.wilderness _) h5)
    have f6 := heapFrame_trans f5 (heapFrame_assign (heapOnly_heap_next s.wilderness _) h6)
    have g7 : HeapFrame t6.wilderness t6 t7 :=
      heapFrame_assign (heapOnly_heap_prev t6.wilderness) h7
    rw [f6.1] at g7
    have f7 := heapFrame_trans f6 g7
    have f8 := heapFrame_trans f7 (heapFrame_assign (heapOnly_heap_next s.wilderness _) h8)
    have m2 : (t2.mem (sbrk 0 s).1).is_mmap = false := by
      obtain ⟨_, _, e⟩ := assign_ok h2
      rw [e, write_mem, if_pos rfl]
    have f28 : HeapFrame s.wilderness t2 t8 := by
      have k3 := heapFrame_assign (heapOnly_is_free s.wilderness _) h3
      have k4 := heapFrame_assign (heapOnly_next_free s.wilderness _) h4
      have k5 := heapFrame_assign (heapOnly_prev_free s.wilderness _) h5
      have k6 := heapFrame_assign (heapOnly_heap_next s.wilderness _) h6
      have k8 := heapFrame_assign (heapOnly_heap_next s.wilderness _) h8
      exact heapFrame_trans k3 (heapFrame_trans k4 (heapFrame_trans k5 (heapFrame_trans k6
        (heapFrame_trans g7 k8))))
    have m8 := is_mmap_frame f28 _ m2
    injection h9 with h9
    injection h9 with h10 h11
    subst h11
    exact ⟨_, h10.symm, hb0, rfl, m8, f8.2.1, f8.2.2.1⟩

theorem smalloc_heap_path_block (fuel size : Nat) (s : State) (l : List Nat)
    (hl : FreeChain s (s.mem dummy_free).next_free l)
    (hsub : ∀ b ∈ l, in_heap_chain s b)
    (hnm : ∀ b, in_heap_chain s b → (s.mem b).is_mmap = false)
    (halign : align size < MMAP_THRESHOLD) (p : Nat) (s1 : State)
    (h : smalloc fuel size s = .ok (p, s1)) (hp : p ≠ 0) :
    s1.mmap_results = s.mmap_results ∧ s1.maps = s.maps ∧
      ∃ b, p = wadd b _size_meta_data ∧ (s1.mem b).is_mmap = false ∧ in_heap_chain s1 b := by
  unfold smalloc smalloc_heap at h
  cases hf : smalloc_first_alloc s with
  | none =>
    rw [hf] at h
    injection h with h
    injection h with h1 h2
    exact absurd h1.symm hp
  | some s0 =>
    rw [hf] at h
    have hnb := smalloc_first_alloc_no_brk hf
    have hmem : s0.mem = s.mem := by
      have := congrArg State.mem hnb
      exact this
    have f0 : ∀ b, HeapFrame b s s0 := fun b => heapFrame_of_no_brk hnb
    dsimp only at h
    split_ifs at h with hrej hbig
    · injection h with h
      injection h with h1 h2
      exact absurd h1.symm hp
    · exact absurd hbig (by omega)
    · simp only [bind_ok] at h
      obtain ⟨d, hd, to_alloc, hsearch, h⟩ := h
      obtain ⟨_, _, rfl⟩ := deref_ok hd
      split_ifs at h with hfound
      · obtain ⟨e, f1⟩ := smalloc_found_heapFrame h
        have f := heapFrame_trans (f0 to_alloc) f1
        have hin : to_alloc ∈ l := by
          rw [hmem] at hsearch
          exact smalloc_search_mem hmem _ l _ _ _ hl hsearch hfound
        have hc := hsub _ hin
        exact ⟨f.2.1, f.2.2.1, to_alloc, e, is_mmap_frame f _ (hnm _ hc),
          in_heap_chain_frame f hc⟩
      · simp only [bind_ok] at h
        obtain ⟨w, hw, h⟩ := h
        split_ifs at h with hwfree
        · obtain ⟨e, hw0, f1⟩ := smalloc_wilderness_heapFrame h hp
          have f := heapFrame_trans (f0 s0.wilderness) f1
          have ew : s0.wilderness = s.wilderness := (f0 0).1
          have hc : in_heap_chain s s0.wilderness := by
            rw [ew]
            exact in_heap_chain_wilderness s (by rw [← ew]; exact hw0)
          exact ⟨f.2.1, f.2.2.1, s0.wilderness, e, is_mmap_frame f _ (hnm _ hc),
            in_heap_chain_frame f hc⟩
        · obtain ⟨b, e, hb0, hwild, hm, r1, r2⟩ := smalloc_new_block h hp
          refine ⟨r1.trans (f0 0).2.1, r2.trans (f0 0).2.2.1, b, e, hm, ?_⟩
          rw [← hwild]
          exact in_heap_chain_wilderness s1 (by rw [hwild]; exact hb0)

theorem align_below_threshold {size : Nat} (hcap : size ≤ MAX_ALLOC)
    (h : align size < MMAP_THRESHOLD) : size ≤ 131064 := by
  unfold align wmul wadd at h
  unfold SIZE_MOD MMAP_THRESHOLD at h
  unfold MAX_ALLOC at hcap
  split_ifs at h <;> omega

theorem heap_chain_from_zero (s : State) (n : Nat) : heap_chain_from n s 0 = [] := by
  cases n <;> rfl

theorem in_heap_chain_heap_one {s : State} (hw : s.wilderness = 4096)
    (hp : (s.mem 4096).heap_prev = 0) (b : Nat) (h : in_heap_chain s b) : b = 4096 := by
  obtain ⟨n, hn⟩ := h
  unfold heap_chain at hn
  rw [hw] at hn
  cases n with
  | zero => simp [heap_chain_from] at hn
  | succ n =>
    unfold heap_chain_from at hn
    rw [if_neg (by decide), hp, heap_chain_from_zero] at hn
    simpa using hn

/-! ## The search loop -/

theorem smalloc_search_scan (s : State) (size : Nat) :
    ∀ (l : List Nat) (fuel a : Nat), FreeChain s a l → l.length < fuel →
      ∃ t, smalloc_search fuel size a s = .ok t ∧
        ((t = 0 ∧ ∀ b ∈ l, (s.mem b).size < size) ∨
          (t ≠ 0 ∧ size ≤ (s.mem t).size ∧
            ∃ l1 l2, l = l1 ++ t :: l2 ∧ ∀ b ∈ l1, (s.mem b).size < size)) := by
  intro l
  induction l with
  | nil =>
    intro fuel a hl hf
    obtain ⟨n, rfl⟩ : ∃ n, fuel = n + 1 := ⟨fuel - 1, by simp at hf; omega⟩
    have ha : a = 0 := hl
    refine ⟨0, ?_, Or.inl ⟨rfl, fun b hb => absurd hb (List.not_mem_nil b)⟩⟩
    unfold smalloc_search
    rw [if_pos ha]
  | cons c l ih =>
    intro fuel a hl hf
    obtain ⟨n, rfl⟩ : ∃ n, fuel = n + 1 := ⟨fuel - 1, by simp at hf; omega⟩
    obtain ⟨hc, hc0, hca, hl1⟩ := hl
    subst hc
    unfold smalloc_search
    rw [if_neg hc0, deref_of_accessible s a hc0 hca]
    simp only [bind, Except.bind]
    by_cases hsz : (s.mem a).size ≥ size
    · rw [if_pos hsz]
      exact ⟨a, rfl, Or.inr ⟨hc0, hsz, [], l, rfl, fun b hb => absurd hb (List.not_mem_nil b)⟩⟩
    · rw [if_neg hsz]
      obtain ⟨t, ht, hres⟩ := ih n _ hl1 (by simp at hf; omega)
      refine ⟨t, ht, ?_⟩
      rcases hres with ⟨h0, hall⟩ | ⟨h0, hfit, l1, l2, hsplit, hall⟩
      · left
        refine ⟨h0, fun b hb => ?_⟩
        rcases List.mem_cons.1 hb with hb | hb
        · rw [hb]; omega
        · exact hall b hb
      · right
        refine ⟨h0, hfit, a :: l1, l2, by rw [hsplit]; rfl, fun b hb => ?_⟩
        rcases List.mem_cons.1 hb with hb | hb
        · rw [hb]; omega
        · exact hall b hb

/-! ## Heap growth that fails -/

theorem sbrk_brk_le (n : Nat) (s : State) (hn : n < 2 ^ 63) : s.brk ≤ (sbrk n s).2.brk := by
  unfold sbrk
  rw [if_pos hn]
  split_ifs
  · exact Nat.le_add_right _ _
  · exact le_refl _

theorem smalloc_first_alloc_brk_le {s s0 : State} (h : smalloc_first_alloc s = some s0) :
    s.brk ≤ s0.brk := by
  unfold smalloc_first_alloc at h
  by_cases hF : s.FIRST_ALLOC = true
  · rw [if_pos hF] at h
    dsimp only at h
    have h0 : s.brk ≤ (sbrk 0 s).2.brk := sbrk_brk_le 0 s (by norm_num)
    split_ifs at h with h1 h2 h3 h4
    · injection h with h
      subst h
      exact le_trans h0 (sbrk_brk_le _ _ (by omega))
    · injection h with h
      subst h
      refine le_trans h0 (sbrk_brk_le _ _ ?_)
      unfold SIZE_MOD
      omega
    · injection h with h
      subst h
      exact h0
  · rw [if_neg hF] at h
    injection h with h
    subst h
    exact le_refl _

theorem in_bounds_mono {hb brk brk1 : Nat} {maps : List (Nat × Nat)} {x : Nat}
    (hle : brk ≤ brk1) (h : in_bounds hb brk maps x = true) : in_bounds hb brk1 maps x = true := by
  unfold in_bounds at h ⊢
  simp only [Bool.or_eq_true, Bool.and_eq_true, decide_eq_true_eq] at h ⊢
  rcases h with (h | h) | h
  · exact Or.inl (Or.inl h)
  · exact Or.inl (Or.inr ⟨h.1, le_trans h.2 hle⟩)
  · exact Or.inr h

theorem smalloc_first_alloc_accessible {s s0 : State} (h : smalloc_first_alloc s = some s0)
    {x : Nat} (hx : accessible s x = true) : accessible s0 x = true := by
  obtain ⟨-, ⟨-, -, -, f8⟩, -, f10, -, -⟩ := smalloc_first_alloc_fields h
  unfold accessible at hx ⊢
  rw [f8, f10]
  exact in_bounds_mono (smalloc_first_alloc_brk_le h) hx

theorem freeChain_mono {s s0 : State} (hacc : ∀ x, accessible s x = true → accessible s0 x = true)
    (hmem : s0.mem = s.mem) :
    ∀ (l : List Nat) (a : Nat), FreeChain s a l → FreeChain s0 a l := by
  intro l
  induction l with
  | nil => intro a h; exact h
  | cons c l ih =>
    intro a h
    obtain ⟨h1, h2, h3, h4⟩ := h
    refine ⟨h1, h2, hacc _ h3, ?_⟩
    rw [hmem]
    exact ih _ h4

theorem fields_of_no_brk {s s1 : State} (h : no_brk s1 = no_brk s) :
    (s1.free_blocks = s.free_blocks ∧ s1.free_bytes = s.free_bytes ∧
      s1.allocated_blocks = s.allocated_blocks ∧ s1.allocated_bytes = s.allocated_bytes) ∧
    s1.mem = s.mem ∧ s1.wilderness = s.wilderness ∧ s1.heap_head = s.heap_head := by
  have e1 := congrArg State.free_blocks h
  have e2 := congrArg State.free_bytes h
  have e3 := congrArg State.allocated_blocks h
  have e4 := congrArg State.allocated_bytes h
  have e5 := congrArg State.mem h
  have e6 := congrArg State.wilderness h
  have e7 := congrArg State.heap_head h
  exact ⟨⟨e1, e2, e3, e4⟩, e5, e6, e7⟩

/-! ## The two branches of `smalloc` -/

theorem write_wilderness (s : State) (a : Nat) (f : MallocMetadata → MallocMetadata) :
    (write s a f).wilderness = s.wilderness := rfl

theorem smalloc_branch (fuel size : Nat) (s : State) (hsz : size ≠ 0) (hcap : size ≤ MAX_ALLOC) :
    smalloc fuel size s =
      match smalloc_first_alloc s with
      | none => .ok (0, s)
      | some s0 =>
        if MMAP_THRESHOLD ≤ align size then smalloc_mmap (align size) s0
        else smalloc_heap fuel (align size) s0 := by
  have hrej : ¬ (size = 0 ∨ size > MAX_ALLOC) := by
    intro h
    rcases h with h | h
    · exact hsz h
    · omega
  unfold smalloc
  cases smalloc_first_alloc s with
  | none => rfl
  | some s0 =>
    dsimp only
    rw [if_neg hrej]

theorem smalloc_wilderness_maps {size p : Nat} {s s1 : State}
    (h : smalloc_wilderness size s = .ok (p, s1)) :
    s1.maps = s.maps ∧ s1.mmap_results = s.mmap_results := by
  unfold smalloc_wilderness at h
  simp only [bind_ok] at h
  obtain ⟨w, hw, h⟩ := h
  have f0 : HeapFrame s.wilderness s (sbrk (wsub size w.size) s).2 :=
    heapFrame_of_no_brk (sbrk_no_brk _ _)
  split_ifs at h with hfail
  · injection h with h
    injection h with h1 h2
    subst h2
    exact ⟨f0.2.2.1, f0.2.1⟩
  · simp only [bind_ok] at h
    obtain ⟨t2, h2, t3, h3, t4, h4, h5⟩ := h
    have f2 := heapFrame_assign (heapOnly_size s.wilderness _) h2
    have f2' : HeapFrame s.wilderness (sbrk (wsub size w.size) s).2 t2 := by
      obtain ⟨a1, a2, a3, a4⟩ := f2
      exact ⟨a1, a2, a3, a4⟩
    have f3 := heapFrame_assign (heapOnly_is_free s.wilderness _) h3
    have f4 : HeapFrame s.wilderness t3 t4 :=
      heapFrame_of_no_links (removeFromFreeList_no_links h4)
    have f := heapFrame_trans f0 (heapFrame_trans f2' (heapFrame_trans f3 f4))
    injection h5 with h5
    injection h5 with h6 h7
    subst h7
    exact ⟨f.2.2.1, f.2.1⟩

theorem smalloc_new_maps {size p : Nat} {s s1 : State}
    (h : smalloc_new size s = .ok (p, s1)) :
    s1.maps = s.maps ∧ s1.mmap_results = s.mmap_results := by
  unfold smalloc_new at h
  dsimp only at h
  have f00 : HeapFrame s.wilderness s (sbrk 0 s).2 := heapFrame_of_no_brk (sbrk_no_brk _ _)
  have e0 : no_brk (sbrk (wadd _size_meta_data size) (sbrk 0 s).2).2 = no_brk s := by
    rw [sbrk_no_brk, sbrk_no_brk]
  have f0 : HeapFrame s.wilderness s (sbrk (wadd _size_meta_data size) (sbrk 0 s).2).2 :=
    heapFrame_of_no_brk e0
  split_ifs at h with hf1 hf2
  · injection h with h
    injection h with h1 h2
    subst h2
    exact ⟨f00.2.2.1, f00.2.1⟩
  · injection h with h
    injection h with h1 h2
    subst h2
    exact ⟨f0.2.2.1, f0.2.1⟩
  · simp only [bind_ok] at h
    obtain ⟨t1, h1, t2, h2, t3, h3, t4, h4, t5, h5, t6, h6, t7, h7, t8, h8, h9⟩ := h
    have f1 := heapFrame_trans f0 (heapFrame_assign (heapOnly_size s.wilderness _) h1)
    have f2 := heapFrame_trans f1 (heapFrame_assign (heapOnly_is_mmap s.wilderness) h2)
    have f3 := heapFrame_trans f2 (heapFrame_assign (heapOnly_is_free s.wilderness _) h3)
    have f4 := heapFrame_trans f3 (heapFrame_assign (heapOnly_next_free s.wilderness _) h4)
    have f5 := heapFrame_trans f4 (heapFrame_assign (heapOnly_prev_free s.wilderness _) h5)
    have f6 := heapFrame_trans f5 (heapFrame_assign (heapOnly_heap_next s.wilderness _) h6)
    have g7 : HeapFrame t6.wilderness t6 t7 :=
      heapFrame_assign (heapOnly_heap_prev t6.wilderness) h7
    rw [f6.1] at g7
    have f7 := heapFrame_trans f6 g7
    have f8 := heapFrame_trans f7 (heapFrame_assign (heapOnly_heap_next s.wilderness _) h8)
    injection h9 with h9
    injection h9 with h10 h11
    subst h11
    exact ⟨f8.2.2.1, f8.2.1⟩

theorem smalloc_heap_maps {fuel size p : Nat} {s s1 : State}
    (h : smalloc_heap fuel size s = .ok (p, s1)) :
    s1.maps = s.maps ∧ s1.mmap_results = s.mmap_results := by
  unfold smalloc_heap at h
  simp only [bind_ok] at h
  obtain ⟨d, hd, to_alloc, hsearch, h⟩ := h
  split_ifs at h with hfound
  · obtain ⟨_, f1⟩ := smalloc_found_heapFrame h
    exact ⟨f1.2.2.1, f1.2.1⟩
  · simp only [bind_ok] at h
    obtain ⟨w, hw, h⟩ := h
    split_ifs at h with hwfree
    · exact smalloc_wilderness_maps h
    · exact smalloc_new_maps h


theorem sbrk_grow (n : Nat) (s : State) (hn : n < 2 ^ 63) (h : s.brk + n ≤ s.brk_limit) :
    sbrk n s = (s.brk, { s with brk := s.brk + n }) := by
  unfold sbrk
  rw [if_pos hn, if_pos h]

theorem assign_total (s : State) (a : Nat) (f : MallocMetadata → MallocMetadata)
    (h0 : a ≠ 0) (h : accessible s a = true) :
    ∃ s1, assign s a f = .ok s1 ∧ (∀ x, accessible s1 x = accessible s x) ∧
      s1.wilderness = s.wilderness :=
  ⟨write s a f, assign_of_accessible s a f h0 h, fun x => accessible_write s a x f, rfl⟩

theorem ok_bind {α β : Type} (a : α) (k : α → Except Fault β) :
    (Except.ok a >>= k) = k a := rfl

theorem smalloc_new_total (n : Nat) (s : State) (hn : n < MMAP_THRESHOLD)
    (hw0 : s.wilderness ≠ 0) (hwacc : accessible s s.wilderness = true)
    (hbase : s.heap_base ≤ s.brk) (hbrk0 : s.brk ≠ 0)
    (hgrow : s.brk + (_size_meta_data + n) ≤ s.brk_limit)
    (hfit : s.brk + (_size_meta_data + n) < SIZE_MOD) :
    ∃ s1, smalloc_new n s = .ok (s.brk + _size_meta_data, s1) ∧ s1.wilderness = s.brk := by
  rw [size_meta_data_eq] at hgrow hfit
  unfold MMAP_THRESHOLD at hn
  unfold SIZE_MOD at hfit
  have hlen : wadd _size_meta_data n = 48 + n := by
    unfold wadd SIZE_MOD
    rw [size_meta_data_eq]
    omega
  have hptr : wadd s.brk _size_meta_data = s.brk + _size_meta_data := by
    unfold wadd SIZE_MOD
    rw [size_meta_data_eq]
    omega
  have hnf : s.brk ≠ SBRK_FAILED := by
    unfold SBRK_FAILED SIZE_MOD
    omega
  have e0 : sbrk 0 s = (s.brk, s) := by
    rw [sbrk_grow 0 s (by norm_num) (by omega)]
    rfl
  obtain ⟨t0, ht0⟩ : ∃ t0, t0 = { s with brk := s.brk + (48 + n) } := ⟨_, rfl⟩
  have e1 : sbrk (wadd _size_meta_data n) s = (s.brk, t0) := by
    rw [hlen, sbrk_grow (48 + n) s (by omega) hgrow, ht0]
  have hb : accessible t0 s.brk = true := by
    rw [ht0]
    unfold accessible in_bounds SIZEOF_MallocMetadata
    dsimp only
    simp only [Bool.or_eq_true, Bool.and_eq_true, decide_eq_true_eq]
    exact Or.inl (Or.inr ⟨hbase, by omega⟩)
  have hwt : t0.wilderness = s.wilderness := by rw [ht0]
  have hw : accessible t0 s.wilderness = true := by
    rw [ht0]
    unfold accessible at hwacc ⊢
    dsimp only
    exact in_bounds_mono (by omega) hwacc
  unfold smalloc_new
  rw [e0]
  dsimp only
  rw [if_neg hnf, e1]
  dsimp only
  rw [if_neg hnf]
  obtain ⟨t1, k1, a1, w1⟩ := assign_total t0 s.brk (fun h => { h with size := n }) hbrk0 hb
  rw [k1, ok_bind]
  obtain ⟨t2, k2, a2, w2⟩ := assign_total t1 s.brk (fun h => { h with is_mmap := false }) hbrk0
    ((a1 _).trans hb)
  rw [k2, ok_bind]
  obtain ⟨t3, k3, a3, w3⟩ := assign_total t2 s.brk (fun h => { h with is_free := false }) hbrk0
    ((a2 _).trans ((a1 _).trans hb))
  rw [k3, ok_bind]
  obtain ⟨t4, k4, a4, w4⟩ := assign_total t3 s.brk (fun h => { h with next_free := 0 }) hbrk0
    ((a3 _).trans ((a2 _).trans ((a1 _).trans hb)))
  rw [k4, ok_bind]
  obtain ⟨t5, k5, a5, w5⟩ := assign_total t4 s.brk (fun h => { h with prev_free := 0 }) hbrk0
    ((a4 _).trans ((a3 _).trans ((a2 _).trans ((a1 _).trans hb))))
  rw [k5, ok_bind]
  obtain ⟨t6, k6, a6, w6⟩ := assign_total t5 s.brk (fun h => { h with heap_next := 0 }) hbrk0
    ((a5 _).trans ((a4 _).trans ((a3 _).trans ((a2 _).trans ((a1 _).trans hb)))))
  rw [k6, ok_bind]
  have hacc6 : ∀ x, accessible t6 x = accessible t0 x := fun x =>
    (a6 x).trans ((a5 x).trans ((a4 x).trans ((a3 x).trans ((a2 x).trans (a1 x)))))
  have hw6 : t6.wilderness = s.wilderness := by rw [w6, w5, w4, w3, w2, w1, hwt]
  obtain ⟨t7, k7, a7, w7⟩ := assign_total t6 s.brk
    (fun h => { h with heap_prev := t6.wilderness }) hbrk0 ((hacc6 _).trans hb)
  rw [k7, ok_bind]
  have hw7 : t7.wilderness = s.wilderness := by rw [w7, hw6]
  obtain ⟨t8, k8, a8, w8⟩ := assign_total t7 t7.wilderness
    (fun h => { h with heap_next := s.brk }) (by rw [hw7]; exact hw0)
    (by rw [hw7, a7, hacc6]; exact hw)
  rw [k8, ok_bind, hptr]
  exact ⟨_, rfl, rfl⟩

theorem smalloc_returns_new_block (fuel size : Nat) (s s0 : State) (l : List Nat)
    (hsz : size ≠ 0) (hcap : size ≤ MAX_ALLOC) (halign : align size < MMAP_THRESHOLD)
    (hfirst : smalloc_first_alloc s = some s0)
    (hl : FreeChain s (s.mem dummy_free).next_free l) (hfuel : l.length < fuel)
    (hsmall : ∀ b ∈ l, (s.mem b).size < align size)
    (hw0 : s.wilderness ≠ 0) (hwacc : accessible s s.wilderness = true)
    (hwfree : (s.mem s.wilderness).is_free = false)
    (hbase : s.heap_base ≤ s.brk) (hbrk0 : s.brk ≠ 0)
    (hgrow : s0.brk + (_size_meta_data + align size) ≤ s0.brk_limit)
    (hfit : s0.brk + (_size_meta_data + align size) < SIZE_MOD) :
    ∃ s1, smalloc fuel size s = .ok (s0.brk + _size_meta_data, s1) ∧
      (s1.mem s0.brk).is_mmap = false ∧ in_heap_chain s1 s0.brk := by
  have hnb := smalloc_first_alloc_no_brk hfirst
  obtain ⟨-, hmem, hwild, -⟩ := fields_of_no_brk hnb
  obtain ⟨-, -, -, hbase0, -, -⟩ := smalloc_first_alloc_fields hfirst
  have hble := smalloc_first_alloc_brk_le hfirst
  have hl0 : FreeChain s0 (s0.mem dummy_free).next_free l := by
    rw [hmem]
    exact freeChain_mono (fun x hx => smalloc_first_alloc_accessible hfirst hx) hmem l _ hl
  obtain ⟨t, ht, hres⟩ := smalloc_search_scan s0 (align size) l fuel _ hl0 hfuel
  have ht0 : t = 0 := by
    rcases hres with ⟨h, _⟩ | ⟨_, hfit, l1, l2, hsplit, _⟩
    · exact h
    · have hmemt : t ∈ l := by rw [hsplit]; simp
      have := hsmall t hmemt
      rw [hmem] at hfit
      omega
  subst ht0
  have hwacc0 : accessible s0 s0.wilderness = true := by
    rw [hwild]
    exact smalloc_first_alloc_accessible hfirst hwacc
  have hw00 : s0.wilderness ≠ 0 := by rw [hwild]; exact hw0
  have hfree0 : (s0.mem s0.wilderness).is_free = false := by rw [hmem, hwild]; exact hwfree
  obtain ⟨s1, hnew, hw1⟩ := smalloc_new_total (align size) s0 halign hw00 hwacc0
    (by rw [hbase0]; omega) (by omega) hgrow hfit
  have hp : s0.brk + _size_meta_data ≠ 0 := by rw [size_meta_data_eq]; omega
  obtain ⟨b, -, hb0, hwb, hm, -, -⟩ := smalloc_new_block hnew hp
  have hb : b = s0.brk := by rw [← hwb, hw1]
  subst hb
  have hheap : smalloc_heap fuel (align size) s0 = .ok (s0.brk + _size_meta_data, s1) := by
    unfold smalloc_heap
    rw [deref_of_accessible s0 dummy_free dummy_free_ne_zero (accessible_dummy_free s0)]
    simp only [bind, Except.bind]
    rw [ht]
    simp only [ne_eq, not_true_eq_false, if_false]
    rw [deref_of_accessible s0 _ hw00 hwacc0]
    simp only [hfree0, Bool.false_eq_true, if_false]
    exact hnew
  refine ⟨s1, ?_, hm, ?_⟩
  · rw [smalloc_branch fuel size s hsz hcap, hfirst]
    dsimp only
    rw [if_neg (by omega)]
    exact hheap
  · have := in_heap_chain_wilderness s1 (by rw [hwb]; exact hb0)
    rw [hwb] at this
    exact this

theorem first_alloc_heap_one_mappable :
    smalloc_first_alloc heap_one_mappable = some heap_one_mappable := rfl

/-! ## C1 -/

/-- C1, at the first call of the program: `smalloc(8)` on the initial state finds no
free block and then reads `wilderness->is_free` through the null `wilderness`, instead
of returning an aligned block of at least 8 bytes. -/
theorem smalloc_initial_state_faults (fuel : Nat) :
    smalloc (fuel + 1) 8 (initial_state 4096 1000000 []) = .error .null_dereference := by
  rfl

/-! ## C2 -/

/-- C2: a request of size zero or of aligned size above `MAX_ALLOC` returns `nullptr`
and changes no counter, no header and neither list anchor; the test of the unaligned
size against `MAX_ALLOC` rejects exactly the sizes whose aligned value, the smallest
multiple of 8 not below the size, exceeds `MAX_ALLOC`, and `align` computes that value
for every size up to `2 ^ 64 - 8`. -/
theorem smalloc_invalid_size (fuel size : Nat) (s : State) :
    ((size = 0 ∨ align size > MAX_ALLOC) →
      ∃ s1, smalloc fuel size s = .ok (0, s1) ∧
        _num_free_blocks s1 = _num_free_blocks s ∧
        _num_free_bytes s1 = _num_free_bytes s ∧
        _num_allocated_blocks s1 = _num_allocated_blocks s ∧
        _num_allocated_bytes s1 = _num_allocated_bytes s ∧
        s1.mem = s.mem ∧ s1.heap_head = s.heap_head ∧ s1.wilderness = s.wilderness) ∧
    (size > MAX_ALLOC ↔ align_spec size > MAX_ALLOC) ∧
    (8 ∣ align_spec size ∧ size ≤ align_spec size ∧
      ∀ m, 8 ∣ m → size ≤ m → align_spec size ≤ m) ∧
    (size + 8 ≤ SIZE_MOD →
      align size = align_spec size ∧ (size > MAX_ALLOC ↔ align size > MAX_ALLOC)) := by
  refine ⟨?_, ?_, ⟨?_, ?_, ?_⟩, fun h => ⟨align_eq_align_spec h, ?_⟩⟩
  · intro h
    have hrej : size = 0 ∨ size > MAX_ALLOC := by
      rcases h with h | h
      · exact Or.inl h
      · right
        by_contra hle
        have := align_le_of_le_max (Nat.le_of_not_gt hle)
        omega
    unfold smalloc smalloc_heap
    cases hf : smalloc_first_alloc s with
    | none => exact ⟨s, rfl, rfl, rfl, rfl, rfl, rfl, rfl, rfl⟩
    | some s1 =>
      have hfr := smalloc_first_alloc_no_brk hf
      refine ⟨s1, ?_, ?_, ?_, ?_, ?_, ?_, ?_, ?_⟩
      · simp only [if_pos hrej]
        rfl
      · have h1 := congrArg State.free_blocks hfr
        exact h1
      · have h1 := congrArg State.free_bytes hfr
        exact h1
      · have h1 := congrArg State.allocated_blocks hfr
        exact h1
      · have h1 := congrArg State.allocated_bytes hfr
        exact h1
      · have h1 := congrArg State.mem hfr
        exact h1
      · have h1 := congrArg State.heap_head hfr
        exact h1
      · have h1 := congrArg State.wilderness hfr
        exact h1
  · unfold align_spec MAX_ALLOC
    omega
  · unfold align_spec
    exact Nat.dvd_mul_left 8 _
  · unfold align_spec
    omega
  · intro m hm hle
    unfold align_spec
    omega
  · rw [align_eq_align_spec h]
    unfold align_spec MAX_ALLOC
    omega

/-- The theorem of C2 at the initial state and the size 100000001. -/
theorem smalloc_invalid_size_witness :
    (∃ s1, smalloc 1 100000001 (initial_state 4096 1000000 []) = .ok (0, s1) ∧
      _num_free_blocks s1 = _num_free_blocks (initial_state 4096 1000000 []) ∧
      _num_free_bytes s1 = _num_free_bytes (initial_state 4096 1000000 []) ∧
      _num_allocated_blocks s1 = _num_allocated_blocks (initial_state 4096 1000000 []) ∧
      _num_allocated_bytes s1 = _num_allocated_bytes (initial_state 4096 1000000 []) ∧
      s1.mem = (initial_state 4096 1000000 []).mem ∧
      s1.heap_head = (initial_state 4096 1000000 []).heap_head ∧
      s1.wilderness = (initial_state 4096 1000000 []).wilderness) ∧
    (align 100000001 = align_spec 100000001 ∧
      (100000001 > MAX_ALLOC ↔ align 100000001 > MAX_ALLOC)) :=
  ⟨(smalloc_invalid_size 1 100000001 (initial_state 4096 1000000 [])).1
      (Or.inr (by decide)),
    (smalloc_invalid_size 1 100000001 (initial_state 4096 1000000 [])).2.2.2
      (by decide)⟩

/-! ## C3 -/

/-- C3, from a state without free blocks: `smalloc(64)` returns 4256 and `sfree` puts
its block of 64 bytes into the free list; the second `smalloc(64)` finds that block,
`LARGE_ENOUGH(64, 64)` wraps around to true, and `cutBlocks` writes a header at the
program break, outside the heap, instead of handing the block out again. -/
theorem smalloc_sfree_smalloc_cuts_exact_fit :
    (do
      let r ← smalloc 2 64 heap_one
      let s ← sfree 2 r.1 r.2
      pure (r.1, view 2 r.2, view 2 s, (s.mem 4208).size, LARGE_ENOUGH 64 64,
        wadd (wadd 4208 _size_meta_data) 64)) =
      .ok (4256,
        { free_blocks := 0, free_bytes := 0, allocated_blocks := 2, allocated_bytes := 128,
          free_list := [], free_list_bytes := 0, heap_chain := [4208, 4096],
          wilderness := 4208, brk := 4320 },
        { free_blocks := 1, free_bytes := 64, allocated_blocks := 2, allocated_bytes := 128,
          free_list := [4208], free_list_bytes := 64, heap_chain := [4208, 4096],
          wilderness := 4208, brk := 4320 },
        64, true, 4320) ∧
    (do
      let r ← smalloc 2 64 heap_one
      let s ← sfree 2 r.1 r.2
      let q ← smalloc 2 64 s
      pure q.1) = .error .invalid_access := by
  decide!

/-! ## C4 -/

/-- C4, on three adjacent allocated blocks of 64 bytes: in each of the six orders the
three calls of `sfree` leave three free blocks of 64 bytes in the free list,
`free_blocks` grown by 3 and `allocated_blocks` still 3, where the claim has one free
block of 288 bytes at 4096, `free_blocks` grown by 1 and `allocated_blocks` 1. -/
theorem sfree_three_adjacent_not_combined :
    ([[4144, 4256, 4368], [4144, 4368, 4256], [4256, 4144, 4368],
      [4256, 4368, 4144], [4368, 4144, 4256], [4368, 4256, 4144]].map fun order =>
        (order.foldlM (fun s p => sfree 4 p s) heap_three).map fun s =>
          (_num_free_blocks s, _num_allocated_blocks s, (free_list 4 s).length,
            (free_list 4 s).map fun a => (s.mem a).size)) =
      [.ok (3, 3, 3, [64, 64, 64]), .ok (3, 3, 3, [64, 64, 64]),
       .ok (3, 3, 3, [64, 64, 64]), .ok (3, 3, 3, [64, 64, 64]),
       .ok (3, 3, 3, [64, 64, 64]), .ok (3, 3, 3, [64, 64, 64])] := by
  decide!

/-! ## C5 -/

/-- C5, for a free block of 64 bytes and a request of 64 bytes: the remainder
`64 - 64 - 48` is negative, yet `LARGE_ENOUGH(64, 64)` is true and `smalloc` cuts the
block: `allocated_blocks` grows from 2 to 3 and the header of the allocated neighbour at
4208 is overwritten with a free block of `2 ^ 64 - 48` bytes that enters the free
list. -/
theorem smalloc_cuts_on_wrapped_remainder :
    LARGE_ENOUGH 64 64 = true ∧
    view 3 heap_exact_fit =
      { free_blocks := 1, free_bytes := 64, allocated_blocks := 2, allocated_bytes := 128,
        free_list := [4096], free_list_bytes := 64, heap_chain := [4208, 4096],
        wilderness := 4208, brk := 4320 } ∧
    heap_exact_fit.mem 4208 = heap_header 64 false 0 0 0 4096 ∧
    ((smalloc 3 64 heap_exact_fit).map fun r =>
        (r.1, view 3 r.2, r.2.mem 4096, r.2.mem 4208)) =
      .ok (4144,
        { free_blocks := 0, free_bytes := 0, allocated_blocks := 3, allocated_bytes := 80,
          free_list := [4208], free_list_bytes := 18446744073709551568,
          heap_chain := [4208, 4096], wilderness := 4208, brk := 4320 },
        heap_header 64 false 0 0 4208 0,
        heap_header 18446744073709551568 true 0 dummy_free 4208 4096) := by
  decide!

/-! ## C6 -/

/-- C6, on a state whose only free block is the wilderness block of 16 bytes: the
request of 64 bytes reaches `removeFromFreeList(wilderness)`, which writes
`block->next_free->prev_free` through the null `next_free` of the last entry of the
free list, instead of returning the enlarged wilderness block. -/
theorem smalloc_wilderness_extension_faults :
    view 3 heap_free_wilderness =
      { free_blocks := 1, free_bytes := 16, allocated_blocks := 2, allocated_bytes := 80,
        free_list := [4208], free_list_bytes := 16, heap_chain := [4208, 4096],
        wilderness := 4208, brk := 4272 } ∧
    (heap_free_wilderness.mem 4208).is_free = true ∧
    (heap_free_wilderness.mem 4208).next_free = 0 ∧
    (smalloc 3 64 heap_free_wilderness).map (fun r => r.1) = .error .null_dereference ∧
    (smalloc_wilderness 64 heap_free_wilderness).map (fun r => r.1) =
      .error .null_dereference ∧
    (removeFromFreeList 4208 heap_free_wilderness).map (fun s => view 3 s) =
      .error .null_dereference := by
  decide!

/-! ## C7 -/

/-- C7, at the first call of a program and at `heap_one_mappable`, both with an operating
system that has the region at 65536 to hand out: the call of `mmap` in `smalloc(200000)`
passes `MAP_ANONYMOUS` without a sharing type and is rejected, although the same call
with `MAP_PRIVATE` added is answered with 65536; `smalloc` then writes `alloc->size`
through `MAP_FAILED`, so no block is returned and no counter is increased. -/
theorem smalloc_mapping_is_rejected :
    (MMAP_THRESHOLD ≤ align 200000 ∧ 200000 ≤ MAX_ALLOC) ∧
    (mmap (wadd _size_meta_data (align 200000)) (PROT_READ ||| PROT_WRITE) MAP_ANONYMOUS
      heap_one_mappable).1 = MAP_FAILED ∧
    (mmap (wadd _size_meta_data (align 200000)) (PROT_READ ||| PROT_WRITE)
      (MAP_PRIVATE ||| MAP_ANONYMOUS) heap_one_mappable).1 = 65536 ∧
    (smalloc 2 200000 (initial_state 4096 1000000 [65536])).map (fun r => r.1) =
      .error .invalid_access ∧
    (smalloc 2 200000 heap_one_mappable).map (fun r => r.1) = .error .invalid_access := by
  decide!

/-! ## C8 -/

/-- C8 fails for 131071 bytes: the aligned size is 131072, so at `heap_one_mappable` the
call `smalloc(131071)` is the mapping code of lines 146-156 and ends in its fault, while
the heap code of lines 158-229 for the same size would have returned the block at 4208,
as `smalloc(131064)` does; as the first call of a program `smalloc(131071)` ends in the
fault of the mapping code as well. -/
theorem smalloc_131071_takes_mapping_branch :
    align 131071 = 131072 ∧
    smalloc 2 131071 heap_one_mappable = smalloc_mmap 131072 heap_one_mappable ∧
    (smalloc 2 131071 heap_one_mappable).map (fun r => r.1) = .error .invalid_access ∧
    (smalloc_heap 2 131072 heap_one_mappable).map (fun r => (r.1, r.2.wilderness)) =
      .ok (4256, 4208) ∧
    (smalloc 2 131064 heap_one_mappable).map (fun r => (r.1, r.2.wilderness)) =
      .ok (4256, 4208) ∧
    (smalloc 2 131071 (initial_state 4096 1000000 [65536])).map (fun r => r.1) =
      .error .invalid_access := by
  refine ⟨by decide, ?_, by decide!, by decide!, by decide!, by decide!⟩
  rw [smalloc_branch 2 131071 heap_one_mappable (by decide) (by decide),
    first_alloc_heap_one_mappable]
  rfl

/-- C8, amended: the size is aligned before it is compared with the threshold, so 131072
and 131071 have the aligned size 131072 and 131064 is the largest admitted size with an
aligned size below the threshold. In every state, after the first-call alignment of the
break (on whose failure `smalloc` returns `nullptr` and changes nothing), a request whose
aligned size reaches the threshold is the mapping code of lines 146-156, and a request
whose aligned size is below the threshold is the heap code of lines 158-229; such a heap
request that returns leaves the mappings and the answers of `mmap` untouched; in a state
whose free-list blocks belong to the heap chain and whose heap-chain blocks are not
mapped, a block it returns has `is_mmap = false` and is in the heap chain; and it does
return such a block, the new wilderness block at the old break, when no free block fits,
the wilderness block is allocated, the break is not null and not below the heap base, and
`sbrk` can grow the heap by header plus size within the address space. -/
theorem smalloc_threshold_paths (fuel : Nat) (s : State) :
    (align 131072 = 131072 ∧ align 131071 = 131072 ∧ align 131064 = 131064 ∧
      ∀ size, size ≤ MAX_ALLOC → align size < MMAP_THRESHOLD → size ≤ 131064) ∧
    (∀ size, size ≠ 0 → size ≤ MAX_ALLOC → MMAP_THRESHOLD ≤ align size →
      smalloc fuel size s =
        match smalloc_first_alloc s with
        | none => .ok (0, s)
        | some s0 => smalloc_mmap (align size) s0) ∧
    (∀ size, size ≠ 0 → size ≤ MAX_ALLOC → align size < MMAP_THRESHOLD →
      (smalloc fuel size s =
        match smalloc_first_alloc s with
        | none => .ok (0, s)
        | some s0 => smalloc_heap fuel (align size) s0) ∧
      (∀ p s1, smalloc fuel size s = .ok (p, s1) →
        s1.maps = s.maps ∧ s1.mmap_results = s.mmap_results) ∧
      (∀ l p s1, FreeChain s (s.mem dummy_free).next_free l →
        (∀ b ∈ l, in_heap_chain s b) →
        (∀ b, in_heap_chain s b → (s.mem b).is_mmap = false) →
        smalloc fuel size s = .ok (p, s1) → p ≠ 0 →
        ∃ b, p = wadd b _size_meta_data ∧ (s1.mem b).is_mmap = false ∧ in_heap_chain s1 b) ∧
      (∀ l s0, smalloc_first_alloc s = some s0 →
        FreeChain s (s.mem dummy_free).next_free l → l.length < fuel →
        (∀ b ∈ l, (s.mem b).size < align size) →
        s.wilderness ≠ 0 → accessible s s.wilderness = true →
        (s.mem s.wilderness).is_free = false →
        s.heap_base ≤ s.brk → s.brk ≠ 0 →
        s0.brk + (_size_meta_data + align size) ≤ s0.brk_limit →
        s0.brk + (_size_meta_data + align size) < SIZE_MOD →
        ∃ s1, smalloc fuel size s = .ok (s0.brk + _size_meta_data, s1) ∧
          (s1.mem s0.brk).is_mmap = false ∧ in_heap_chain s1 s0.brk)) := by
  refine ⟨⟨by decide, by decide, by decide, fun size h1 h2 => align_below_threshold h1 h2⟩,
    ?_, ?_⟩
  · intro size hsz hcap hbig
    rw [smalloc_branch fuel size s hsz hcap]
    cases smalloc_first_alloc s with
    | none => rfl
    | some s0 =>
      dsimp only
      rw [if_pos hbig]
  · intro size hsz hcap hsmall
    have hbr : smalloc fuel size s =
        match smalloc_first_alloc s with
        | none => .ok (0, s)
        | some s0 => smalloc_heap fuel (align size) s0 := by
      rw [smalloc_branch fuel size s hsz hcap]
      cases smalloc_first_alloc s with
      | none => rfl
      | some s0 =>
        dsimp only
        rw [if_neg (by omega)]
    refine ⟨hbr, ?_, ?_, ?_⟩
    · intro p s1 h
      rw [hbr] at h
      cases hf : smalloc_first_alloc s with
      | none =>
        rw [hf] at h
        injection h with h
        injection h with h1 h2
        subst h2
        exact ⟨rfl, rfl⟩
      | some s0 =>
        rw [hf] at h
        obtain ⟨-, ⟨-, -, f7, f8⟩, -, -, -, -⟩ := smalloc_first_alloc_fields hf
        obtain ⟨g1, g2⟩ := smalloc_heap_maps h
        exact ⟨g1.trans f8, g2.trans f7⟩
    · intro l p s1 hl hsub hnm h hp
      exact (smalloc_heap_path_block fuel size s l hl hsub hnm hsmall p s1 h hp).2.2
    · intro l s0 hfirst hl hfuel hlt hw0 hwacc hwfree hbase hbrk0 hgrow hfit
      exact smalloc_returns_new_block fuel size s s0 l hsz hcap hsmall hfirst hl hfuel hlt hw0
        hwacc hwfree hbase hbrk0 hgrow hfit

/-- The theorem of C8 at `heap_one_mappable`: requests of 131072 and of 131071 bytes are
the mapping code, and a request of 131064 bytes is the heap code, which returns the new
wilderness block at 4208, not mapped and in the heap chain, and leaves the mappings and
the answers of `mmap` untouched. -/
theorem smalloc_threshold_paths_witness :
    smalloc 2 131072 heap_one_mappable = smalloc_mmap (align 131072) heap_one_mappable ∧
    smalloc 2 131071 heap_one_mappable = smalloc_mmap (align 131071) heap_one_mappable ∧
    smalloc 2 131064 heap_one_mappable = smalloc_heap 2 (align 131064) heap_one_mappable ∧
    ∃ s1, smalloc 2 131064 heap_one_mappable = .ok (4208 + _size_meta_data, s1) ∧
      (s1.mem 4208).is_mmap = false ∧ in_heap_chain s1 4208 ∧
      s1.maps = heap_one_mappable.maps ∧
      s1.mmap_results = heap_one_mappable.mmap_results ∧
      ∃ b, 4208 + _size_meta_data = wadd b _size_meta_data ∧ (s1.mem b).is_mmap = false ∧
        in_heap_chain s1 b := by
  have hthm := smalloc_threshold_paths 2 heap_one_mappable
  obtain ⟨-, hmap, hheap⟩ := hthm
  have h1 := hmap 131072 (by decide) (by decide) (by decide)
  have h2 := hmap 131071 (by decide) (by decide) (by decide)
  obtain ⟨h3, hmaps, hblock, htotal⟩ := hheap 131064 (by decide) (by decide) (by decide)
  rw [first_alloc_heap_one_mappable] at h1 h2 h3
  have hnil : FreeChain heap_one_mappable (heap_one_mappable.mem dummy_free).next_free [] := by
    unfold FreeChain
    decide
  obtain ⟨s1, hs1, hm, hc⟩ := htotal [] heap_one_mappable first_alloc_heap_one_mappable
    hnil (by decide) (fun b hb => absurd hb (List.not_mem_nil b)) (by decide) (by decide)
    (by decide) (by decide) (by decide) (by decide) (by decide)
  have hs1' : smalloc 2 131064 heap_one_mappable = .ok (4208 + _size_meta_data, s1) := hs1
  obtain ⟨m1, m2⟩ := hmaps _ _ hs1'
  have hb := hblock [] _ s1 hnil (fun b hb => absurd hb (List.not_mem_nil b))
    (fun b hb => by
      have hb1 := in_heap_chain_heap_one rfl rfl b hb
      rw [hb1]
      decide)
    hs1' (by decide)
  exact ⟨h1, h2, h3, s1, hs1', hm, hc, m1, m2, hb⟩

/-! ## C9 -/

/-- C9: in a state whose free list is a null-terminated chain of accessible headers,
`sfree` of the payload pointer of an allocated heap block succeeds, and a second `sfree`
of the same pointer succeeds and returns the very same state; `sfree(nullptr)` returns
every state unchanged. -/
theorem sfree_twice (fuel : Nat) (s : State) (b : Nat) (l : List Nat)
    (hl : FreeChain s (s.mem dummy_free).next_free l) (hfuel : l.length < fuel)
    (hb0 : b ≠ 0) (hbacc : accessible s b = true) (hbfit : b + _size_meta_data < SIZE_MOD)
    (hfree : (s.mem b).is_free = false) (hmmap : (s.mem b).is_mmap = false) :
    (∃ s1, sfree fuel (b + _size_meta_data) s = .ok s1 ∧
      sfree fuel (b + _size_meta_data) s1 = .ok s1 ∧
      (s1.mem b).is_free = true) ∧
    ∀ (n : Nat) (t : State), sfree n 0 t = .ok t := by
  refine ⟨?_, fun n t => rfl⟩
  have hp : b + _size_meta_data ≠ 0 := by rw [size_meta_data_eq]; omega
  have hmeta : wsub (b + _size_meta_data) _size_meta_data = b := by
    unfold wsub
    rw [size_meta_data_eq] at *
    unfold SIZE_MOD at *
    omega
  set sa := write s b (fun h => { h with is_free := true }) with hsa
  have hla : FreeChain sa (sa.mem dummy_free).next_free l := by
    have hnext : ∀ x, (sa.mem x).next_free = (s.mem x).next_free := by
      intro x
      rw [hsa, write_mem]
      split_ifs with hx
      · subst hx; rfl
      · rfl
    rw [hnext]
    exact @freeChain_congr s sa (fun x => rfl) hnext l _ hl
  obtain ⟨sb, hsb⟩ := addToFreeList_loop_total l fuel b dummy_free sa dummy_free_ne_zero
    (accessible_dummy_free _) hb0 hbacc hla hfuel
  have hnl := addToFreeList_loop_no_links fuel b dummy_free sa sb hsb
  have hbacc2 : accessible sb b = true := by
    rw [accessible_of_no_links hnl]; exact hbacc
  have hfree2 : (sb.mem b).is_free = true := by
    rw [is_free_of_no_links hnl, hsa, write_mem, if_pos rfl]
  obtain ⟨s1, hs1⟩ : ∃ s1, s1 = combineBlocks b { { sb with free_blocks := wadd sb.free_blocks 1 } with
        free_bytes := wadd sb.free_bytes (sb.mem b).size } := ⟨_, rfl⟩
  have hbacc3 : accessible s1 b = true := by rw [hs1]; exact hbacc2
  have hfree3 : (s1.mem b).is_free = true := by rw [hs1]; exact hfree2
  have hfirst : sfree fuel (b + _size_meta_data) s = .ok s1 := by
    unfold sfree
    rw [if_neg hp]
    dsimp only
    rw [hmeta, deref_of_accessible s b hb0 hbacc]
    simp only [bind, Except.bind, hfree, hmmap, Bool.false_eq_true, if_false]
    rw [assign_of_accessible s b _ hb0 hbacc]
    simp only [addToFreeList]
    rw [← hsa, hsb]
    simp only []
    rw [deref_of_accessible _ b hb0 (by exact hbacc2), hs1]
    rfl
  refine ⟨s1, hfirst, ?_, hfree3⟩
  unfold sfree
  rw [if_neg hp]
  dsimp only
  rw [hmeta, deref_of_accessible s1 b hb0 hbacc3]
  simp only [bind, Except.bind, hfree3, if_true]
  rfl

/-- The theorem of C9 at `heap_two_free` and its allocated block at 5168. -/
theorem sfree_twice_witness :
    (∃ s1, sfree 3 (5168 + _size_meta_data) heap_two_free = .ok s1 ∧
      sfree 3 (5168 + _size_meta_data) s1 = .ok s1 ∧
      (s1.mem 5168).is_free = true) ∧
    ∀ (n : Nat) (t : State), sfree n 0 t = .ok t :=
  sfree_twice 3 heap_two_free 5168 [4096, 5280]
    ⟨rfl, by decide, by decide, rfl, by decide, by decide, rfl⟩
    (by decide) (by decide) (by decide) (by decide) (by decide) (by decide)

/-! ## C10 -/

/-- C10, on states in which `free_blocks` and `free_bytes` agree with the free list:
after a `smalloc` that cuts a block the free list holds 2 blocks and 2960 bytes while
the counters say 1 and 3008, and after a `smalloc` that enlarges the wilderness block
the free list holds 1 block and 32 bytes while the counters still say 2 and 48. -/
theorem smalloc_breaks_free_counters :
    view 5 heap_two_free =
      { free_blocks := 2, free_bytes := 3072, allocated_blocks := 4, allocated_bytes := 3200,
        free_list := [4096, 5280], free_list_bytes := 3072,
        heap_chain := [7376, 5280, 5168, 4096], wilderness := 7376, brk := 7488 } ∧
    (smalloc 5 64 heap_two_free).map (fun r => (r.1, view 5 r.2)) =
      .ok (4144,
        { free_blocks := 1, free_bytes := 3008, allocated_blocks := 5, allocated_bytes := 3152,
          free_list := [4208, 5280], free_list_bytes := 2960,
          heap_chain := [7376, 5280, 5168, 4096], wilderness := 7376, brk := 7488 }) ∧
    view 5 heap_small_free =
      { free_blocks := 2, free_bytes := 48, allocated_blocks := 3, allocated_bytes := 112,
        free_list := [4288, 4096], free_list_bytes := 48,
        heap_chain := [4288, 4176, 4096], wilderness := 4288, brk := 4352 } ∧
    (smalloc 5 64 heap_small_free).map (fun r => (r.1, view 5 r.2)) =
      .ok (4336,
        { free_blocks := 2, free_bytes := 48, allocated_blocks := 3, allocated_bytes := 160,
          free_list := [4096], free_list_bytes := 32,
          heap_chain := [4288, 4176, 4096], wilderness := 4288, brk := 4400 }) := by
  decide!

/-! ## The doubly linked free list -/

theorem freeLinked_unique {s : State} : ∀ (l l1 : List Nat) (p p1 a : Nat),
    FreeLinked s p a l → FreeLinked s p1 a l1 → l = l1 := by
  intro l
  induction l with
  | nil =>
    intro l1 p p1 a h h1
    cases l1 with
    | nil => rfl
    | cons c t =>
      have ha : a = 0 := h
      obtain ⟨hc, hc0, _⟩ := h1
      exact absurd (hc.symm.trans ha) hc0
  | cons b l ih =>
    intro l1 p p1 a h h1
    obtain ⟨hb, hb0, _, _, hrest⟩ := h
    cases l1 with
    | nil =>
      have ha : a = 0 := h1
      exact absurd (hb.symm.trans ha) hb0
    | cons c t =>
      obtain ⟨hc, _, _, _, hrest1⟩ := h1
      have hbc : b = c := hb.symm.trans hc
      subst hbc
      rw [ih t _ _ _ hrest hrest1]

theorem freeLinked_suffix {s : State} : ∀ (l1 l2 : List Nat) (p a x : Nat),
    FreeLinked s p a (l1 ++ x :: l2) → FreeLinked s x (s.mem x).next_free l2 := by
  intro l1
  induction l1 with
  | nil =>
    intro l2 p a x h
    exact h.2.2.2.2
  | cons c t ih =>
    intro l2 p a x h
    exact ih l2 _ _ x h.2.2.2.2

theorem freeLinked_start_not_mem {s : State} {p x : Nat} {l : List Nat}
    (h : FreeLinked s p (s.mem x).next_free l) : x ∉ l := by
  intro hx
  obtain ⟨l1, l2, hsplit⟩ := List.append_of_mem hx
  rw [hsplit] at h
  have h2 := freeLinked_suffix l1 l2 _ _ x h
  have := freeLinked_unique _ _ _ _ _ h h2
  have hlen := congrArg List.length this
  simp at hlen
  omega

theorem freeLinked_congr {s s1 : State} (hacc : ∀ x, accessible s1 x = accessible s x) :
    ∀ (l : List Nat) (p a : Nat), (∀ x ∈ l, s1.mem x = s.mem x) →
      FreeLinked s p a l → FreeLinked s1 p a l := by
  intro l
  induction l with
  | nil => intro p a _ h; exact h
  | cons c t ih =>
    intro p a hm h
    obtain ⟨h1, h2, h3, h4, h5⟩ := h
    have hc := hm c (List.mem_cons_self _ _)
    refine ⟨h1, h2, ?_, ?_, ?_⟩
    · rw [hacc]; exact h3
    · rw [hc]; exact h4
    · rw [hc]
      exact ih _ _ (fun x hx => hm x (List.mem_cons_of_mem _ hx)) h5

theorem addToFreeList_loop_insert (b : Nat) : ∀ (l : List Nat) (fuel iter : Nat) (s : State),
    iter ≠ 0 → accessible s iter = true → b ≠ 0 → accessible s b = true → b ≠ iter →
    b ∉ l → FreeLinked s iter (s.mem iter).next_free l → l.length < fuel →
    ∃ s1 l1 l2, addToFreeList_loop fuel b iter s = .ok s1 ∧ l = l1 ++ l2 ∧
      (∀ x ∈ l1, (s.mem x).size ≤ (s.mem b).size) ∧
      (∀ c, l2.head? = some c → (s.mem b).size < (s.mem c).size) ∧
      FreeLinked s1 iter (s1.mem iter).next_free (l1 ++ b :: l2) ∧
      (∀ x, x ≠ iter → x ≠ b → x ∉ l → s1.mem x = s.mem x) ∧
      (s1.mem iter).prev_free = (s.mem iter).prev_free := by
  intro l
  induction l with
  | nil =>
    intro fuel iter s hi hia hb hba hbi _ hl hf
    obtain ⟨n, rfl⟩ : ∃ n, fuel = n + 1 := ⟨fuel - 1, by simp at hf; omega⟩
    have hnext : (s.mem iter).next_free = 0 := hl
    have hib : iter ≠ b := fun h => hbi h.symm
    obtain ⟨s1, hs1⟩ : ∃ s1, s1 = write (write (write s b (fun h => { h with next_free := 0 })) b
        (fun h => { h with prev_free := iter })) iter (fun h => { h with next_free := b }) :=
      ⟨_, rfl⟩
    have hrun : addToFreeList_loop (n + 1) b iter s = .ok s1 := by
      unfold addToFreeList_loop
      simp [deref_of_accessible, assign_of_accessible, accessible_write, hi, hia, hb, hba, hnext,
        bind, Except.bind, hs1]
    have hmi : s1.mem iter = { s.mem iter with next_free := b } := by
      rw [hs1, write_mem, if_pos rfl, write_mem, if_neg hib, write_mem, if_neg hib]
    have hmb : s1.mem b = { s.mem b with next_free := 0, prev_free := iter } := by
      rw [hs1, write_mem, if_neg hbi, write_mem, if_pos rfl, write_mem, if_pos rfl]
    refine ⟨s1, [], [], hrun, rfl, fun x hx => absurd hx (List.not_mem_nil x),
      fun c hc => by simp at hc, ?_, ?_, ?_⟩
    · refine ⟨?_, hb, ?_, ?_, ?_⟩
      · rw [hmi]
      · rw [hs1]; exact hba
      · rw [hmb]
      · show (s1.mem b).next_free = 0
        rw [hmb]
    · intro x hxi hxb _
      rw [hs1, write_mem, if_neg hxi, write_mem, if_neg hxb, write_mem, if_neg hxb]
    · rw [hmi]
  | cons c t ih =>
    intro fuel iter s hi hia hb hba hbi hbl hl hf
    obtain ⟨n, rfl⟩ : ∃ n, fuel = n + 1 := ⟨fuel - 1, by simp at hf; omega⟩
    have hil : iter ∉ c :: t := freeLinked_start_not_mem hl
    obtain ⟨hc, hc0, hca, hcp, hl1⟩ := hl
    have hct : c ∉ t := freeLinked_start_not_mem hl1
    have hic : iter ≠ c := fun h => hil (h ▸ List.mem_cons_self _ _)
    have hit : iter ∉ t := fun h => hil (List.mem_cons_of_mem _ h)
    have hbc : b ≠ c := fun h => hbl (h ▸ List.mem_cons_self _ _)
    have hbt : b ∉ t := fun h => hbl (List.mem_cons_of_mem _ h)
    have hib : iter ≠ b := fun h => hbi h.symm
    by_cases hsz : (s.mem c).size > (s.mem b).size
    · obtain ⟨s1, hs1⟩ : ∃ s1, s1 = write (write (write (write s b
          (fun h => { h with prev_free := iter })) b (fun h => { h with next_free := c })) c
          (fun h => { h with prev_free := b })) iter (fun h => { h with next_free := b }) :=
        ⟨_, rfl⟩
      have hrun : addToFreeList_loop (n + 1) b iter s = .ok s1 := by
        unfold addToFreeList_loop
        simp only [deref_of_accessible s iter hi hia, bind, Except.bind, hc, hc0, ne_eq,
          not_false_eq_true, if_true, deref_of_accessible s c hc0 hca,
          deref_of_accessible s b hb hba, hsz]
        rw [assign_of_accessible _ _ _ hb hba]
        simp only []
        rw [deref_of_accessible _ iter hi (by rw [accessible_write]; exact hia)]
        simp only []
        have e1 : ((write s b fun h => { h with prev_free := iter }).mem iter).next_free = c := by
          rw [write_mem, if_neg hib]; exact hc
        rw [e1, assign_of_accessible _ _ _ hb (by rw [accessible_write]; exact hba)]
        simp only []
        rw [deref_of_accessible _ iter hi (by rw [accessible_write, accessible_write]; exact hia)]
        simp only []
        have e2 : ((write (write s b fun h => { h with prev_free := iter }) b
            fun h => { h with next_free := c }).mem iter).next_free = c := by
          rw [write_mem, if_neg hib, write_mem, if_neg hib]; exact hc
        rw [e2, assign_of_accessible _ _ _ hc0
          (by rw [accessible_write, accessible_write]; exact hca)]
        simp only []
        rw [assign_of_accessible _ _ _ hi
          (by rw [accessible_write, accessible_write, accessible_write]; exact hia), hs1]
      have hmi : s1.mem iter = { s.mem iter with next_free := b } := by
        rw [hs1, write_mem, if_pos rfl, write_mem, if_neg hic, write_mem, if_neg hib,
          write_mem, if_neg hib]
      have hmc : s1.mem c = { s.mem c with prev_free := b } := by
        rw [hs1, write_mem, if_neg (Ne.symm hic), write_mem, if_pos rfl, write_mem,
          if_neg (Ne.symm hbc), write_mem, if_neg (Ne.symm hbc)]
      have hmb : s1.mem b = { s.mem b with prev_free := iter, next_free := c } := by
        rw [hs1, write_mem, if_neg hbi, write_mem, if_neg hbc, write_mem, if_pos rfl,
          write_mem, if_pos rfl]
      have hother : ∀ x, x ≠ iter → x ≠ b → x ≠ c → s1.mem x = s.mem x := by
        intro x h1 h2 h3
        rw [hs1, write_mem, if_neg h1, write_mem, if_neg h3, write_mem, if_neg h2,
          write_mem, if_neg h2]
      have hacc : ∀ x, accessible s1 x = accessible s x := by
        intro x; rw [hs1]; rfl
      refine ⟨s1, [], c :: t, hrun, rfl, fun x hx => absurd hx (List.not_mem_nil x),
        fun d hd => ?_, ?_, ?_, ?_⟩
      · simp at hd
        rw [← hd]; exact hsz
      · refine ⟨?_, hb, ?_, ?_, ?_, hc0, ?_, ?_, ?_⟩
        · rw [hmi]
        · rw [hacc]; exact hba
        · rw [hmb]
        · rw [hmb]
        · rw [hacc]; exact hca
        · rw [hmc]
        · have e : (s1.mem c).next_free = (s.mem c).next_free := by rw [hmc]
          rw [e]
          refine freeLinked_congr hacc t _ _ (fun x hx => ?_) hl1
          exact hother x (fun h => hit (h ▸ hx)) (fun h => hbt (h ▸ hx)) (fun h => hct (h ▸ hx))
      · intro x hxi hxb hxl
        exact hother x hxi hxb (fun h => hxl (h ▸ List.mem_cons_self _ _))
      · rw [hmi]
    · obtain ⟨s1, l1, l2, hrun1, hsplit, hle, hhead, hlinked, hframe, hprev⟩ :=
        ih n c s hc0 hca hb hba hbc hbt hl1 (by simp at hf; omega)
      have hrun : addToFreeList_loop (n + 1) b iter s = .ok s1 := by
        unfold addToFreeList_loop
        simp only [deref_of_accessible s iter hi hia, bind, Except.bind, hc, hc0, ne_eq,
          not_false_eq_true, if_true, deref_of_accessible s c hc0 hca,
          deref_of_accessible s b hb hba, hsz, if_false]
        exact hrun1
      have hacc : ∀ x, accessible s1 x = accessible s x :=
        accessible_of_no_links (addToFreeList_loop_no_links _ _ _ _ _ hrun1)
      have hmi : s1.mem iter = s.mem iter := hframe iter hic hib hit
      refine ⟨s1, c :: l1, l2, hrun, by rw [hsplit]; rfl, fun x hx => ?_, hhead, ?_, ?_, ?_⟩
      · rcases List.mem_cons.1 hx with hx | hx
        · rw [hx]; omega
        · exact hle x hx
      · refine ⟨?_, hc0, ?_, ?_, hlinked⟩
        · rw [hmi]; exact hc
        · rw [hacc]; exact hca
        · rw [hprev]; exact hcp
      · intro x hxi hxb hxl
        exact hframe x (fun h => hxl (h ▸ List.mem_cons_self _ _)) hxb
          (fun h => hxl (List.mem_cons_of_mem _ h))
      · rw [hmi]

theorem size_of_no_links {s s1 : State} (h : no_links s1 = no_links s) (x : Nat) :
    (s1.mem x).size = (s.mem x).size := by
  have h1 := congrArg MallocMetadata.size (header_of_no_links h x)
  exact h1

/-! ## C11 -/

/-- C11, on a state in which `allocated_blocks` and `allocated_bytes` agree with the two
blocks of the heap: `smalloc(64)` reuses the free block of 64 bytes, `LARGE_ENOUGH`
wraps around and `cutBlocks` runs, so the counters become 3 and 80 while the heap still
has the two headers at 4096 and 4208, now with sizes 64 and `2 ^ 64 - 48`, and the walk
along `heap_next` loops at 4208; `_num_meta_data_bytes` is the product it should be. -/
theorem smalloc_breaks_allocated_counters :
    (_num_allocated_blocks heap_exact_fit, _num_allocated_bytes heap_exact_fit,
      heap_chain 5 heap_exact_fit, heap_walk_from 5 heap_exact_fit 4096,
      sizes_sum heap_exact_fit (heap_chain 5 heap_exact_fit)) =
      (2, 128, [4208, 4096], [4096, 4208], 128) ∧
    heap_exact_fit.maps = [] ∧
    ((smalloc 5 64 heap_exact_fit).map fun r =>
        (r.1, _num_allocated_blocks r.2, _num_allocated_bytes r.2, heap_chain 5 r.2,
          heap_walk_from 5 r.2 4096)) =
      .ok (4144, 3, 80, [4208, 4096], [4096, 4208, 4208, 4208, 4208]) ∧
    ((smalloc 5 64 heap_exact_fit).map fun r =>
        (sizes_sum r.2 (heap_chain 5 r.2), r.2.maps, _num_meta_data_bytes r.2)) =
      .ok (18446744073709551632, [], 3 * _size_meta_data) := by
  decide!

/-! ## C12 -/

/-- C12, when `mmap` fails: `smalloc(200000)` gets `MAP_FAILED` and writes
`alloc->size` through it, instead of returning `nullptr`. -/
theorem smalloc_writes_through_map_failed :
    (mmap (wadd _size_meta_data (align 200000)) (PROT_READ ||| PROT_WRITE) MAP_ANONYMOUS
      heap_one).1 = MAP_FAILED ∧
    (smalloc_mmap (align 200000) heap_one).map (fun r => r.1) = .error .invalid_access ∧
    (smalloc 2 200000 heap_one).map (fun r => r.1) = .error .invalid_access ∧
    (smalloc 2 200000 { heap_one with mmap_results := [MAP_FAILED, 65536] }).map
      (fun r => r.1) = .error .invalid_access := by
  decide!

/-! ## C13 -/

/-- C13: in a state whose free list is a null-terminated chain of accessible blocks that
are all smaller than the aligned request, and whose wilderness block exists, a heap-path
request for which `sbrk` fails (for the missing bytes when the wilderness block is free,
for the query or for header plus size otherwise) returns `nullptr` and leaves the four
counters, every header and the wilderness pointer unchanged. -/
theorem smalloc_growth_failure (fuel size : Nat) (s : State) (l : List Nat)
    (hl : FreeChain s (s.mem dummy_free).next_free l) (hfuel : l.length < fuel)
    (hsmall : ∀ b ∈ l, (s.mem b).size < align size)
    (hsz : size ≠ 0) (hcap : size ≤ MAX_ALLOC) (halign : align size < MMAP_THRESHOLD)
    (hw0 : s.wilderness ≠ 0) (hwacc : accessible s s.wilderness = true)
    (hfail : ∀ s0, smalloc_first_alloc s = some s0 →
      if (s.mem s.wilderness).is_free = true then
        (sbrk (wsub (align size) (s.mem s.wilderness).size) s0).1 = SBRK_FAILED
      else
        (sbrk 0 s0).1 = SBRK_FAILED ∨
          (sbrk (wadd _size_meta_data (align size)) (sbrk 0 s0).2).1 = SBRK_FAILED) :
    ∃ s1, smalloc fuel size s = .ok (0, s1) ∧
      (_num_free_blocks s1 = _num_free_blocks s ∧ _num_free_bytes s1 = _num_free_bytes s ∧
        _num_allocated_blocks s1 = _num_allocated_blocks s ∧
        _num_allocated_bytes s1 = _num_allocated_bytes s) ∧
      s1.mem = s.mem ∧ s1.wilderness = s.wilderness ∧ s1.heap_head = s.heap_head := by
  suffices hmain : ∃ s1, smalloc fuel size s = .ok (0, s1) ∧ no_brk s1 = no_brk s by
    obtain ⟨s1, h1, h2⟩ := hmain
    exact ⟨s1, h1, fields_of_no_brk h2⟩
  unfold smalloc smalloc_heap
  cases hf : smalloc_first_alloc s with
  | none => exact ⟨s, rfl, rfl⟩
  | some s0 =>
    have hnb := smalloc_first_alloc_no_brk hf
    obtain ⟨-, hmem, hwild, -⟩ := fields_of_no_brk hnb
    have hfl := hfail s0 hf
    have hrej : ¬ (size = 0 ∨ size > MAX_ALLOC) := by
      intro h
      rcases h with h | h
      · exact hsz h
      · omega
    have hbig : ¬ align size ≥ MMAP_THRESHOLD := by omega
    have hl0 : FreeChain s0 (s0.mem dummy_free).next_free l := by
      rw [hmem]
      exact freeChain_mono (fun x hx => smalloc_first_alloc_accessible hf hx) hmem l _ hl
    obtain ⟨t, ht, hres⟩ := smalloc_search_scan s0 (align size) l fuel _ hl0 hfuel
    have ht0 : t = 0 := by
      rcases hres with ⟨h, _⟩ | ⟨_, hfit, l1, l2, hsplit, _⟩
      · exact h
      · have hmemt : t ∈ l := by rw [hsplit]; simp
        have := hsmall t hmemt
        rw [hmem] at hfit
        omega
    subst ht0
    have hwacc0 : accessible s0 s0.wilderness = true := by
      rw [hwild]
      exact smalloc_first_alloc_accessible hf hwacc
    have hw00 : s0.wilderness ≠ 0 := by rw [hwild]; exact hw0
    dsimp only
    rw [if_neg hrej, if_neg hbig, deref_of_accessible s0 dummy_free dummy_free_ne_zero
      (accessible_dummy_free s0)]
    simp only [bind, Except.bind]
    rw [ht]
    simp only [ne_eq, not_true_eq_false, if_false]
    rw [deref_of_accessible s0 _ hw00 hwacc0]
    simp only []
    have hfree_eq : (s0.mem s0.wilderness).is_free = (s.mem s.wilderness).is_free := by
      rw [hmem, hwild]
    have hsize_eq : (s0.mem s0.wilderness).size = (s.mem s.wilderness).size := by
      rw [hmem, hwild]
    by_cases hwf : (s.mem s.wilderness).is_free = true
    · rw [if_pos hwf] at hfl
      rw [hfree_eq, if_pos hwf]
      unfold smalloc_wilderness
      rw [deref_of_accessible s0 _ hw00 hwacc0]
      simp only [bind, Except.bind]
      rw [hsize_eq, if_pos hfl]
      exact ⟨_, rfl, (sbrk_no_brk _ _).trans hnb⟩
    · rw [if_neg hwf] at hfl
      rw [hfree_eq, if_neg hwf]
      unfold smalloc_new
      dsimp only
      rcases hfl with h1 | h2
      · rw [if_pos h1]
        exact ⟨_, rfl, (sbrk_no_brk _ _).trans hnb⟩
      · by_cases h1 : (sbrk 0 s0).1 = SBRK_FAILED
        · rw [if_pos h1]
          exact ⟨_, rfl, (sbrk_no_brk _ _).trans hnb⟩
        · rw [if_neg h1, if_pos h2]
          exact ⟨_, rfl, ((sbrk_no_brk _ _).trans (sbrk_no_brk _ _)).trans hnb⟩

/-- The theorem of C13 at `heap_free_wilderness_full` and a request of 64 bytes. -/
theorem smalloc_growth_failure_witness :
    ∃ s1, smalloc 2 64 heap_free_wilderness_full = .ok (0, s1) ∧
      (_num_free_blocks s1 = _num_free_blocks heap_free_wilderness_full ∧
        _num_free_bytes s1 = _num_free_bytes heap_free_wilderness_full ∧
        _num_allocated_blocks s1 = _num_allocated_blocks heap_free_wilderness_full ∧
        _num_allocated_bytes s1 = _num_allocated_bytes heap_free_wilderness_full) ∧
      s1.mem = heap_free_wilderness_full.mem ∧
      s1.wilderness = heap_free_wilderness_full.wilderness ∧
      s1.heap_head = heap_free_wilderness_full.heap_head :=
  smalloc_growth_failure 2 64 heap_free_wilderness_full [4208]
    ⟨rfl, by decide, by decide, rfl⟩ (by decide)
    (fun b hb => by
      have hb1 : b = 4208 := by simpa using hb
      rw [hb1]
      decide)
    (by decide) (by decide) (by decide) (by decide) (by decide)
    (fun s0 h0 => by
      have h1 : smalloc_first_alloc heap_free_wilderness_full =
          some heap_free_wilderness_full := rfl
      rw [h1] at h0
      injection h0 with h0
      subst h0
      decide)

/-! ## C14 -/

/-- C14, when `smalloc` fails: for a product of zero and for a product above `MAX_ALLOC`
`smalloc` returns `nullptr`, and `scalloc` then reads `is_mmap` of the header 48 bytes
below `nullptr`, instead of returning `nullptr`. -/
theorem scalloc_reads_below_null :
    (smalloc 2 (wmul 0 8) heap_one).map (fun r => r.1) = .ok 0 ∧
    (scalloc 2 0 8 heap_one).map (fun r => r.1) = .error .invalid_access ∧
    (smalloc 2 (wmul 100000001 1) heap_one).map (fun r => r.1) = .ok 0 ∧
    (scalloc 2 100000001 1 heap_one).map (fun r => r.1) = .error .invalid_access ∧
    wsub 0 _size_meta_data = 18446744073709551568 ∧
    (deref heap_one (wsub 0 _size_meta_data)).map (fun m => m.is_mmap) =
      .error .invalid_access := by
  decide!

/-! ## C15 -/

/-- C15, for the allocated block of 64 bytes at 4096 and a new size of 8: `srealloc` has
no statement at all and ends without returning a pointer, instead of returning 4144. -/
theorem srealloc_returns_nothing :
    (heap_one.mem 4096).size = 64 ∧ align 8 ≤ (heap_one.mem 4096).size ∧
    (srealloc 4144 8 heap_one).map (fun r => r.1) = .error .missing_return := by
  decide!

/-! ## C16 -/

/-- C16, for a free block of 1024 bytes that is the last entry of the free list:
`cutBlocks(block, 64)` inserts the remainder in front of the block and then calls
`removeFromFreeList(block)`, which writes through the null `next_free` of the block.
For the first entry of a longer free list the call completes with the effects the
claim lists. -/
theorem cutBlocks_faults_on_last_entry :
    (free_list 5 heap_free_tail, (heap_free_tail.mem 4096).size,
      (heap_free_tail.mem 4096).next_free) = ([4096], 1024, 0) ∧
    (cutBlocks 5 4096 64 heap_free_tail).map (fun s => view 5 s) =
      .error .null_dereference ∧
    (cutBlocks 5 4096 64 heap_two_free).map
        (fun s => (view 5 s, s.mem 4096, s.mem 4208)) =
      .ok ({ free_blocks := 2, free_bytes := 3072, allocated_blocks := 5,
             allocated_bytes := 3152, free_list := [4096, 4208, 5280],
             free_list_bytes := 3024, heap_chain := [7376, 5280, 5168, 4096],
             wilderness := 7376, brk := 7488 },
        heap_header 64 true 4208 dummy_free 4208 0,
        heap_header 912 true 5280 4096 5168 4096) := by
  decide!

/-! ## C17 -/

/-- C17: for a doubly linked free list `l` that is sorted by ascending size and a block
`b` outside it, `addToFreeList(b)` completes and leaves the doubly linked free list
`l1 ++ b :: l2` with `l = l1 ++ l2`, which is again sorted; every entry of `l1` is at
most as large as `b`, every entry of `l2` is strictly larger, and nothing but free-list
links has changed. -/
theorem addToFreeList_sorted (fuel : Nat) (s : State) (b : Nat) (l : List Nat)
    (hl : FreeLinked s dummy_free (s.mem dummy_free).next_free l)
    (hsorted : l.Pairwise (fun x y => (s.mem x).size ≤ (s.mem y).size))
    (hbl : b ∉ l) (hbd : b ≠ dummy_free) (hb0 : b ≠ 0) (hbacc : accessible s b = true)
    (hfuel : l.length < fuel) :
    ∃ s1 l1 l2, addToFreeList fuel b s = .ok s1 ∧ l = l1 ++ l2 ∧
      FreeLinked s1 dummy_free (s1.mem dummy_free).next_free (l1 ++ b :: l2) ∧
      (l1 ++ b :: l2).Pairwise (fun x y => (s1.mem x).size ≤ (s1.mem y).size) ∧
      (∀ x ∈ l1, (s.mem x).size ≤ (s.mem b).size) ∧
      (∀ x ∈ l2, (s.mem b).size < (s.mem x).size) ∧
      no_links s1 = no_links s := by
  obtain ⟨s1, l1, l2, hrun, hsplit, hle, hhead, hlinked, -, -⟩ :=
    addToFreeList_loop_insert b l fuel dummy_free s dummy_free_ne_zero
      (accessible_dummy_free s) hb0 hbacc hbd hbl hl hfuel
  have hnl := addToFreeList_loop_no_links _ _ _ _ _ hrun
  rw [hsplit] at hsorted
  obtain ⟨hp1, hp2, hcross⟩ := List.pairwise_append.1 hsorted
  have hgt : ∀ x ∈ l2, (s.mem b).size < (s.mem x).size := by
    intro x hx
    cases l2 with
    | nil => exact absurd hx (List.not_mem_nil x)
    | cons c t =>
      have hc := hhead c rfl
      rcases List.mem_cons.1 hx with hx | hx
      · rw [hx]; exact hc
      · have := (List.pairwise_cons.1 hp2).1 x hx
        omega
  refine ⟨s1, l1, l2, hrun, hsplit, hlinked, ?_, hle, hgt, hnl⟩
  have hsz := size_of_no_links hnl
  rw [List.pairwise_append]
  refine ⟨?_, ?_, ?_⟩
  · exact hp1.imp (fun {x y} h => by rw [hsz x, hsz y]; exact h)
  · rw [List.pairwise_cons]
    refine ⟨fun x hx => ?_, hp2.imp (fun {x y} h => by rw [hsz x, hsz y]; exact h)⟩
    rw [hsz, hsz]
    exact Nat.le_of_lt (hgt x hx)
  · intro x hx y hy
    rw [hsz, hsz]
    rcases List.mem_cons.1 hy with hy | hy
    · rw [hy]; exact hle x hx
    · exact hcross x hx y hy

/-- The theorem of C17 at `heap_two_free` and its allocated block at 5168. -/
theorem addToFreeList_sorted_witness :
    ∃ s1 l1 l2, addToFreeList 3 5168 heap_two_free = .ok s1 ∧ [4096, 5280] = l1 ++ l2 ∧
      FreeLinked s1 dummy_free (s1.mem dummy_free).next_free (l1 ++ 5168 :: l2) ∧
      (l1 ++ 5168 :: l2).Pairwise (fun x y => (s1.mem x).size ≤ (s1.mem y).size) ∧
      (∀ x ∈ l1, (heap_two_free.mem x).size ≤ (heap_two_free.mem 5168).size) ∧
      (∀ x ∈ l2, (heap_two_free.mem 5168).size < (heap_two_free.mem x).size) ∧
      no_links s1 = no_links heap_two_free :=
  addToFreeList_sorted 3 heap_two_free 5168 [4096, 5280]
    ⟨rfl, by decide, by decide, rfl, rfl, by decide, by decide, rfl, rfl⟩
    (by decide) (by decide) (by decide) (by decide) (by decide) (by decide)

/-! ## C18 -/

/-- C18, for the last entry of a free list of two blocks: `removeFromFreeList` writes
`block->next_free->prev_free` through the null `next_free`; for the first entry it
completes and leaves the other entry linked to `dummy_free`. -/
theorem removeFromFreeList_faults_on_last_entry :
    (free_list 5 heap_two_free, (heap_two_free.mem 5280).next_free) = ([4096, 5280], 0) ∧
    (removeFromFreeList 5280 heap_two_free).map (fun s => free_list 5 s) =
      .error .null_dereference ∧
    (removeFromFreeList 4096 heap_two_free).map
        (fun s => (free_list 5 s, s.mem 4096, s.mem 5280)) =
      .ok ([5280], heap_header 1024 true 0 0 5168 0,
        heap_header 2048 true 0 dummy_free 7376 5168) := by
  decide!

/-! ## C19 -/

/-- C19: on a free list that is sorted by ascending size, the search loop of `smalloc`
returns a block exactly when some free block is at least as large as the request; the
block it returns is large enough, no larger than any other free block that is large
enough, and every entry in front of it is too small. -/
theorem smalloc_search_first_fit (fuel size : Nat) (s : State) (l : List Nat)
    (hl : FreeChain s (s.mem dummy_free).next_free l) (hfuel : l.length < fuel)
    (hsorted : l.Pairwise (fun a b => (s.mem a).size ≤ (s.mem b).size)) :
    ∃ t, smalloc_search fuel size (s.mem dummy_free).next_free s = .ok t ∧
      (t ≠ 0 ↔ ∃ b ∈ l, size ≤ (s.mem b).size) ∧
      (t ≠ 0 → size ≤ (s.mem t).size ∧
        (∀ b ∈ l, size ≤ (s.mem b).size → (s.mem t).size ≤ (s.mem b).size) ∧
        ∃ l1 l2, l = l1 ++ t :: l2 ∧ ∀ b ∈ l1, (s.mem b).size < size) := by
  obtain ⟨t, ht, hres⟩ := smalloc_search_scan s size l fuel _ hl hfuel
  refine ⟨t, ht, ?_, ?_⟩
  · constructor
    · intro h0
      rcases hres with ⟨h, _⟩ | ⟨_, hfit, l1, l2, hsplit, _⟩
      · exact absurd h h0
      · exact ⟨t, by rw [hsplit]; simp, hfit⟩
    · rintro ⟨b, hb, hbs⟩ h0
      rcases hres with ⟨_, hall⟩ | ⟨h, _⟩
      · have := hall b hb
        omega
      · exact h h0
  · intro h0
    rcases hres with ⟨h, _⟩ | ⟨_, hfit, l1, l2, hsplit, hall⟩
    · exact absurd h h0
    · refine ⟨hfit, fun b hb hbs => ?_, l1, l2, hsplit, hall⟩
      rw [hsplit] at hb hsorted
      rcases List.mem_append.1 hb with hb | hb
      · have := hall b hb
        omega
      · rcases List.mem_cons.1 hb with hb | hb
        · rw [hb]
        · have hp := (List.pairwise_append.1 hsorted).2.1
          exact (List.pairwise_cons.1 hp).1 b hb

/-- The theorem of C19 at `heap_two_free` and a request of 2000 bytes. -/
theorem smalloc_search_first_fit_witness :
    ∃ t, smalloc_search 3 2000 (heap_two_free.mem dummy_free).next_free heap_two_free = .ok t ∧
      (t ≠ 0 ↔ ∃ b ∈ [4096, 5280], 2000 ≤ (heap_two_free.mem b).size) ∧
      (t ≠ 0 → 2000 ≤ (heap_two_free.mem t).size ∧
        (∀ b ∈ [4096, 5280], 2000 ≤ (heap_two_free.mem b).size →
          (heap_two_free.mem t).size ≤ (heap_two_free.mem b).size) ∧
        ∃ l1 l2, [4096, 5280] = l1 ++ t :: l2 ∧
          ∀ b ∈ l1, (heap_two_free.mem b).size < 2000) :=
  smalloc_search_first_fit 3 2000 heap_two_free [4096, 5280]
    ⟨rfl, by decide, by decide, rfl, by decide, by decide, rfl⟩ (by decide) (by decide)

/-! ## C20 -/

/-- C20, for a `smalloc(64)` that cuts a block: when the block has a successor, the
successor at 5168 keeps `heap_prev` 4096 although the remainder at 4208 now has it as
`heap_next`; when the block is the wilderness block at 6304, `wilderness` still points
to it although its `heap_next` is now the remainder at 6416, whose `heap_next` is
null. -/
theorem smalloc_cut_breaks_heap_chain :
    (heap_walk_from 6 heap_two_free 4096, heap_chain 6 heap_two_free) =
      ([4096, 5168, 5280, 7376], [7376, 5280, 5168, 4096]) ∧
    ((smalloc 6 64 heap_two_free).map fun r =>
        (r.1, heap_walk_from 6 r.2 4096, heap_chain 6 r.2)) =
      .ok (4144, [4096, 4208, 5168, 5280, 7376], [7376, 5280, 5168, 4096]) ∧
    ((smalloc 6 64 heap_two_free).map fun r =>
        ((r.2.mem 4208).heap_next, (r.2.mem 5168).heap_prev)) = .ok (5168, 4096) ∧
    (heap_walk_from 6 heap_big_wilderness 4096, heap_chain 6 heap_big_wilderness,
      heap_big_wilderness.wilderness) = ([4096, 6192, 6304], [6304, 6192, 4096], 6304) ∧
    ((smalloc 6 64 heap_big_wilderness).map fun r =>
        (r.1, heap_walk_from 6 r.2 4096, heap_chain 6 r.2)) =
      .ok (6352, [4096, 6192, 6304, 6416], [6304, 6192, 4096]) ∧
    ((smalloc 6 64 heap_big_wilderness).map fun r =>
        (r.2.wilderness, (r.2.mem 6304).heap_next, (r.2.mem 6416).heap_next)) =
      .ok (6304, 6416, 0) := by
  decide!

end OS4
